import Mathlib

/-!
# Shallow embedding of the trading-system signal/sizing/backtesting core

This file embeds, in Lean 4, the components of the repository that the
verification claims are about:

* `src/strategies/aggregation.py` — `SignalAggregator`
* `src/portfolio/position_sizer.py` — `PositionSizer`
* `src/portfolio/drawdown_monitor.py` — `calculate_drawdowns`
* `src/strategies/canslim.py`, `trend_following.py`, `livermore.py`
* `src/indicators/moving_average.py`, `volatility.py`
* `src/backtesting/engine.py` — `BacktestingEngine`

Modelling conventions:

* Python floats are modelled as rationals (`ℚ`); float arithmetic on the
  magnitudes involved is modelled exactly.
* Calendar dates (pandas timestamps) are modelled as naturals (`ℕ`),
  ordered as the dates are.
* A pandas `DataFrame` with single-level columns is modelled as a `Frame`:
  a list of column names plus date-indexed rows; a missing cell (NaN)
  is an absent entry of the row's association list.  The engine's
  MultiIndex-column lookup branch has no counterpart because `Frame`
  models single-level column tables, which is the only shape the claims
  exercise.
* Python exceptions are modelled with `Except SysError`; the constructors
  of `SysError` name the error taxonomy of the specification, one
  constructor per distinct `ValueError`/`KeyError` site of the source.
* Python dicts are modelled as association lists in insertion order;
  assignment replaces in place, insertion appends at the end, exactly as
  Python dict semantics order iteration.
-/

/-- A metadata value: Python signal metadata holds numbers, strings and
lists of such values. -/
inductive MVal where
  | num (q : ℚ)
  | str (s : String)
  | list (l : List MVal)

/-- Signal metadata: a string-keyed map in insertion order. -/
abbrev Metadata := List (String × MVal)

/-- `dict.get(k)`: first value stored at key `k`, if any. -/
def alookup {κ α : Type} [DecidableEq κ] : List (κ × α) → κ → Option α
  | [], _ => none
  | (k', v) :: rest, k => if k' = k then some v else alookup rest k

/-- `dict[k] = v`: replace the value at `k` in place, or append a new
entry at the end (Python dict assignment keeps the key's position). -/
def aset {κ α : Type} [DecidableEq κ] : List (κ × α) → κ → α → List (κ × α)
  | [], k, v => [(k, v)]
  | (k', v') :: rest, k, v =>
    if k' = k then (k, v) :: rest else (k', v') :: aset rest k v

/-- `dict.pop(k)`: drop the entry at `k`, keeping the order of the
rest. -/
def apop {κ α : Type} [DecidableEq κ] : List (κ × α) → κ → List (κ × α)
  | [], _ => []
  | (k', v) :: rest, k => if k' = k then rest else (k', v) :: apop rest k

/-- `metadata.get(key)` when the stored value is numeric
(`isinstance(value, (int, float))`), else `none`. -/
def numLookup (m : Metadata) (k : String) : Option ℚ :=
  match alookup m k with
  | some (MVal.num q) => some q
  | _ => none

/-- Signal kind, from `strategies/base.py` (the module itself is not in
`src/`; the enum's two members are fixed by the spec data model §3 and by
every use site). -/
inductive SignalType where
  | BUY
  | SELL
deriving DecidableEq

/-- A strategy signal.  Modelled from the spec: `strategies/base.py`
(class `StrategySignal`) is not under `src/`; the fields are those of
spec §3 and of every producer/consumer in `src/`. -/
structure StrategySignal where
  symbol : String
  date : ℕ
  strategy : String
  signal_type : SignalType
  confidence : ℚ
  metadata : Metadata

/-- Error taxonomy of the specification; each constructor stands for one
`raise` site of the source. -/
inductive SysError where
  | missingField (fields : List String)
  | emptySeries
  | invalidCapital
  | negativeTransactionCost
  | missingPriceData
  | invalidIndicatorParam
deriving DecidableEq

/-! ## Signal aggregation — `src/strategies/aggregation.py` -/

/-- `AggregationParams` (defaults `min_confidence = 0.5`, empty
weighting). -/
structure AggregationParams where
  min_confidence : ℚ := 1/2
  weighting : List (String × ℚ) := []

/-- `self.params.weighting.get(signal.strategy, 1.0)`. -/
def lookupWeight (w : List (String × ℚ)) (name : String) : ℚ :=
  (alookup w name).getD 1

structure SignalAggregator where
  params : AggregationParams

/-- The `total_weight` accumulated by the loop of `_combine_signals`. -/
def SignalAggregator.totalWeight (self : SignalAggregator)
    (g : List StrategySignal) : ℚ :=
  (g.map (fun s => lookupWeight self.params.weighting s.strategy)).sum

/-- The `weighted_confidence` accumulated by the loop of
`_combine_signals`. -/
def SignalAggregator.weightedConfidence (self : SignalAggregator)
    (g : List StrategySignal) : ℚ :=
  (g.map (fun s => lookupWeight self.params.weighting s.strategy * s.confidence)).sum

/-- `d[key].append(value)` on a `defaultdict(list)`: push the value at
the end of the key's list, creating the key at the end on first use. -/
def appendVal {κ α : Type} [DecidableEq κ] :
    List (κ × List α) → κ → α → List (κ × List α)
  | [], k, v => [(k, [v])]
  | (k', vs) :: rest, k, v =>
    if k' = k then (k', vs ++ [v]) :: rest else (k', vs) :: appendVal rest k v

/-- The `combined_metadata` accumulated by the loop of `_combine_signals`:
for each signal in order, for each of its metadata items in order, append
the value to the list at that key. -/
def collectMeta (g : List StrategySignal) : List (String × List MVal) :=
  g.foldl (fun acc s => s.metadata.foldl (fun a p => appendVal a p.1 p.2) acc) []

/-- `BacktestingEngine._combine_signals` → `_combine_signals` of
`SignalAggregator`: fuse one `(symbol, signal_type)` group.  The single
Python loop accumulates `total_weight`, `weighted_confidence`, `dates`
and `combined_metadata`; these are the named accumulator functions
above.  `max(dates)` of the nonempty date list is `foldl max 0` over
`ℕ`. -/
def SignalAggregator.combineSignals (self : SignalAggregator) (symbol : String)
    (ty : SignalType) (g : List StrategySignal) : Option StrategySignal :=
  let W := self.totalWeight g
  if W = 0 then none
  else
    let avg := self.weightedConfidence g / W
    if avg < self.params.min_confidence then none
    else
      let flattened := (collectMeta g).map (fun p => (p.1, MVal.list p.2))
      let md1 := aset flattened "strategies"
        (MVal.list (g.map (fun s => MVal.str s.strategy)))
      let md2 := aset md1 "confidence_values"
        (MVal.list (g.map (fun s => MVal.num s.confidence)))
      some { symbol := symbol
             date := (g.map (fun s => s.date)).foldl max 0
             strategy := "aggregated"
             signal_type := ty
             confidence := avg
             metadata := md2 }

/-- First occurrences of a list, in order — the iteration order of the
keys of a Python dict built by insertion. -/
def dedupFirst {α : Type} [DecidableEq α] (l : List α) : List α :=
  go [] l
where
  go : List α → List α → List α
  | _, [] => []
  | seen, x :: xs => if x ∈ seen then go seen xs else x :: go (x :: seen) xs

/-- Iteration order of the two-level `grouped` dict of `aggregate`:
symbols in first-appearance order, and for each symbol its signal types
in first-appearance order among that symbol's signals. -/
def SignalAggregator.groupKeys (signals : List StrategySignal) :
    List (String × SignalType) :=
  (dedupFirst (signals.map (fun s => s.symbol))).flatMap fun sym =>
    (dedupFirst ((signals.filter (fun s => s.symbol = sym)).map
      (fun s => s.signal_type))).map fun ty => (sym, ty)

/-- The bucket of one `(symbol, signal_type)` key in the `grouped`
dict: the matching signals in input order — exactly what the grouping
pass appends. -/
def groupOf (signals : List StrategySignal) (sym : String) (ty : SignalType) :
    List StrategySignal :=
  signals.filter (fun s => s.symbol = sym ∧ s.signal_type = ty)

/-- `SignalAggregator.aggregate`: group by `(symbol, signal_type)` and
emit the combined signal of each group that survives. -/
def SignalAggregator.aggregate (self : SignalAggregator)
    (signals : List StrategySignal) : List StrategySignal :=
  (SignalAggregator.groupKeys signals).filterMap fun k =>
    self.combineSignals k.1 k.2 (groupOf signals k.1 k.2)

/-! ## Position sizing — `src/portfolio/position_sizer.py` -/

/-- `RiskManagementConfig` from `trading_system/config_manager.py`. -/
structure RiskManagementConfig where
  max_positions : ℤ
  individual_stop : ℚ
  portfolio_stop : ℚ
  sector_limits : List (String × ℚ)
  position_sizing : String := "equal_weight"

structure PositionAllocation where
  symbol : String
  shares : ℤ
  allocation : ℚ
  confidence : ℚ
  sector : String
  entry_price : ℚ
  stop_price : ℚ

structure PositionSizer where
  risk_config : RiskManagementConfig

/-- `PositionSizer._extract_price`: try the metadata keys
`entry_price, breakout_price, price, close` in that order, returning the
first numeric value. -/
def PositionSizer.extractPrice (signal : StrategySignal) : Option ℚ :=
  match numLookup signal.metadata "entry_price" with
  | some v => some v
  | none =>
    match numLookup signal.metadata "breakout_price" with
    | some v => some v
    | none =>
      match numLookup signal.metadata "price" with
      | some v => some v
      | none => numLookup signal.metadata "close"

/-- `PositionSizer._get_sector_limit`: `sector_limits[sector]`, else
`sector_limits["other"]`, else `1.0`. -/
def PositionSizer.getSectorLimit (self : PositionSizer) (sector : String) : ℚ :=
  match alookup self.risk_config.sector_limits sector with
  | some v => v
  | none => (alookup self.risk_config.sector_limits "other").getD 1

/-- Mutable state of the sizing loop. -/
structure SizerState where
  allocations : List PositionAllocation
  sector_allocated : List (String × ℚ)
  total_positions : ℤ

/-- The body of the `for signal in sorted_signals` loop of
`size_positions` for one signal: skip on no/non-positive price, on an
exhausted sector, or on a zero share count; otherwise record the
allocation and accumulate the sector and position counters. -/
def PositionSizer.sizeStep (self : PositionSizer) (account_equity : ℚ)
    (base_allocation : ℚ) (sector_map : List (String × String))
    (st : SizerState) (signal : StrategySignal) : SizerState :=
  match PositionSizer.extractPrice signal with
  | none => st
  | some price =>
    if price ≤ 0 then st
    else
      let sector := ((alookup sector_map signal.symbol).getD "other").toLower
      let sector_limit := self.getSectorLimit sector
      let current := (alookup st.sector_allocated sector).getD 0
      let remaining := account_equity * sector_limit - current
      if remaining ≤ 0 then st
      else
        let budget := min base_allocation remaining
        let shares := Rat.floor (budget / price)
        if shares ≤ 0 then st
        else
          let value := (shares : ℚ) * price
          let stop := price * (1 - self.risk_config.individual_stop)
          { allocations := st.allocations ++
              [{ symbol := signal.symbol, shares := shares,
                 allocation := value, confidence := signal.confidence,
                 sector := sector, entry_price := price, stop_price := stop }]
            sector_allocated := aset st.sector_allocated sector (current + value)
            total_positions := st.total_positions + 1 }

/-- The `for signal in sorted_signals` loop of `size_positions`,
including the early `break` once `max_positions` are filled. -/
def PositionSizer.sizeLoop (self : PositionSizer) (account_equity : ℚ)
    (base_allocation : ℚ) (max_positions : ℤ)
    (sector_map : List (String × String)) :
    SizerState → List StrategySignal → SizerState
  | st, [] => st
  | st, signal :: rest =>
    if max_positions ≤ st.total_positions then st
    else
      self.sizeLoop account_equity base_allocation max_positions sector_map
        (self.sizeStep account_equity base_allocation sector_map st signal) rest

/-- `PositionSizer.size_positions`.  The input is filtered to BUY
signals and stably sorted descending by confidence;
`sector_allocated` starts at zero for every configured sector. -/
def PositionSizer.size_positions (self : PositionSizer)
    (signals : List StrategySignal) (account_equity : ℚ)
    (sector_map : List (String × String)) : List PositionAllocation :=
  if account_equity ≤ 0 then []
  else
    let max_positions := max 1 self.risk_config.max_positions
    let base_allocation := account_equity / (max_positions : ℚ)
    let sorted_signals := List.insertionSort
      (fun a b => b.confidence ≤ a.confidence)
      (signals.filter (fun s => s.signal_type = SignalType.BUY))
    (self.sizeLoop account_equity base_allocation max_positions sector_map
      { allocations := []
        sector_allocated := self.risk_config.sector_limits.map (fun p => (p.1, (0 : ℚ)))
        total_positions := 0 } sorted_signals).allocations

/-! ## Price frames

A pandas `DataFrame` of one symbol's bars, with single-level columns.
A row is an association list of the columns that hold a value at that
date; an absent entry models a NaN / missing cell. -/

/-- One row of a price frame. -/
abbrev Row := List (String × ℚ)

/-- A date-indexed price table with single-level columns. -/
structure Frame where
  cols : List String
  rows : List (ℕ × Row)

/-- `DataFrame.empty`: true when either axis has length zero. -/
def Frame.isEmpty (f : Frame) : Bool :=
  f.rows.isEmpty || f.cols.isEmpty

/-- The frame's date index, in row order. -/
def Frame.dates (f : Frame) : List ℕ :=
  f.rows.map (fun r => r.1)

/-- `DataFrame.sort_index()`: stable sort of the rows by date. -/
def Frame.sortIndex (f : Frame) : Frame :=
  { f with rows := List.insertionSort (fun a b => a.1 ≤ b.1) f.rows }

/-! ## Indicators — `src/indicators/moving_average.py`, `volatility.py` -/

/-- The recurrence of `ewm(span=span, adjust=False).mean()` after the
first element: `y = (1-a)*prev + a*x`. -/
def emaScan (a : ℚ) : ℚ → List ℚ → List ℚ
  | _, [] => []
  | prev, x :: rest =>
    let y := (1 - a) * prev + a * x
    y :: emaScan a y rest

/-- `ema(series, span)`: exponential moving average with
`alpha = 2/(span+1)`, seeded at the first value (`adjust=False`);
raises if `span <= 0`. -/
def ema (xs : List ℚ) (span : ℤ) : Except SysError (List ℚ) :=
  if span ≤ 0 then .error .invalidIndicatorParam
  else
    let a : ℚ := 2 / ((span : ℚ) + 1)
    match xs with
    | [] => .ok []
    | x :: rest => .ok (x :: emaScan a x rest)

/-- True range of one bar given the previous close (`NaN` for the first
bar, where the max skips the NaN legs and leaves `high - low`). -/
def trueRange (h l : ℚ) (prevClose : Option ℚ) : ℚ :=
  match prevClose with
  | none => h - l
  | some pc => max (h - l) (max |h - pc| |l - pc|)

/-- The per-bar true-range series (walking the three aligned columns
with the shifted close). -/
def trueRanges : List ℚ → List ℚ → List ℚ → Option ℚ → List ℚ
  | h :: hs, l :: ls, c :: cs, pc => trueRange h l pc :: trueRanges hs ls cs (some c)
  | _, _, _, _ => []

/-- `rolling(window=n, min_periods=minp).mean()`: at index `i` the mean
of the last `min(i+1, n)` values when that count reaches `minp`, else
NaN (`none`). -/
def rollingMean (n minp : ℕ) (xs : List ℚ) : List (Option ℚ) :=
  (List.range xs.length).map fun i =>
    let count := min (i + 1) n
    if minp ≤ count then
      some ((((xs.take (i + 1)).drop (i + 1 - n)).sum) / (count : ℚ))
    else none

/-- `rolling(window=n).max()` (`min_periods` defaulting to the window):
at index `i` the max of the full window ending at `i`, NaN before the
window fills. -/
def rollingMax (n : ℕ) (xs : List ℚ) : List (Option ℚ) :=
  (List.range xs.length).map fun i =>
    if n ≤ i + 1 ∧ 0 < n then
      some (listMaxQ ((xs.take (i + 1)).drop (i + 1 - n)))
    else none
where
  listMaxQ : List ℚ → ℚ
  | [] => 0
  | x :: rest => rest.foldl max x

/-- `rolling(window=n).min()`, as `rollingMax`. -/
def rollingMin (n : ℕ) (xs : List ℚ) : List (Option ℚ) :=
  (List.range xs.length).map fun i =>
    if n ≤ i + 1 ∧ 0 < n then
      some (listMinQ ((xs.take (i + 1)).drop (i + 1 - n)))
    else none
where
  listMinQ : List ℚ → ℚ
  | [] => 0
  | x :: rest => rest.foldl min x

/-- `average_true_range(highs, lows, closes, period)`: rolling mean of
the true range, full window required; raises if `period <= 0`. -/
def average_true_range (highs lows closes : List ℚ) (period : ℤ) :
    Except SysError (List (Option ℚ)) :=
  if period ≤ 0 then .error .invalidIndicatorParam
  else .ok (rollingMean period.toNat period.toNat (trueRanges highs lows closes none))

/-! ## CAN-SLIM strategy — `src/strategies/canslim.py` -/

/-- `CanSlimParams` with the source defaults.  The Python weights dict
has the four fixed keys `earnings, relative_strength, price_near_high,
volume_increase`; they are the four `weights_*` fields here (the
`__post_init__` sum-to-1 validation is a construction-time check on
those fields). -/
structure CanSlimParams where
  earnings_growth_threshold : ℚ := 1/4
  relative_strength_threshold : ℚ := 4/5
  near_high_threshold : ℚ := 3/20
  volume_increase_threshold : ℚ := 1/5
  min_score : ℚ := 3/4
  weights_earnings : ℚ := 1/4
  weights_relative_strength : ℚ := 1/4
  weights_price_near_high : ℚ := 1/4
  weights_volume_increase : ℚ := 1/4

structure CanSlimStrategy where
  params : CanSlimParams

def CanSlimStrategy.name : String := "can_slim"

def CanSlimStrategy.required_columns : List String :=
  ["close", "volume", "earnings_growth", "relative_strength",
   "fifty_two_week_high", "average_volume", "volume_change"]

/-- `CanSlimStrategy._calculate_components` on the latest row: the four
weighted component scores, in the dict order of the source. -/
def CanSlimStrategy.calculateComponents (self : CanSlimStrategy) (row : Row) :
    List (String × ℚ) :=
  let p := self.params
  let earnings_score :=
    match alookup row "earnings_growth" with
    | some eg => if p.earnings_growth_threshold ≤ eg then p.weights_earnings else 0
    | none => 0
  let rs_score :=
    match alookup row "relative_strength" with
    | some rs => p.weights_relative_strength * min 1 rs
    | none => 0
  let price_score :=
    match alookup row "fifty_two_week_high", alookup row "close" with
    | some high, some close =>
      if 0 < high then
        let distance := (high - close) / high
        if distance ≤ p.near_high_threshold then
          p.weights_price_near_high * (1 - distance / p.near_high_threshold)
        else 0
      else 0
    | _, _ => 0
  let volume_score :=
    match alookup row "volume_change" with
    | some vc =>
      if p.volume_increase_threshold ≤ vc then
        p.weights_volume_increase * min 1 (vc / p.volume_increase_threshold)
      else 0
    | none => 0
  [("earnings_score", earnings_score),
   ("relative_strength_score", rs_score),
   ("price_near_high_score", price_score),
   ("volume_increase_score", volume_score)]

/-- `CanSlimStrategy.generate_signals`: empty frame → no signals;
missing required columns → `MissingFieldError` naming them; otherwise
score the latest bar and emit one BUY iff the total reaches
`min_score`. -/
def CanSlimStrategy.generate_signals (self : CanSlimStrategy) (symbol : String)
    (prices : Frame) : Except SysError (List StrategySignal) :=
  if prices.isEmpty then .ok []
  else
    let df := prices.sortIndex
    let missing := CanSlimStrategy.required_columns.filter (fun c => c ∉ df.cols)
    if missing ≠ [] then .error (.missingField missing)
    else
      match df.rows.getLast? with
      | none => .ok []
      | some latest =>
        let comps := self.calculateComponents latest.2
        let total := (comps.map (fun p => p.2)).sum
        if total < self.params.min_score then .ok []
        else
          .ok [{ symbol := symbol
                 date := latest.1
                 strategy := CanSlimStrategy.name
                 signal_type := .BUY
                 confidence := total
                 metadata := (comps.map (fun p => (p.1, MVal.num p.2))) ++
                   [("total_score", MVal.num total)] }]

/-! ## Trend-following strategy — `src/strategies/trend_following.py` -/

/-- `TrendFollowingParams` with the source defaults. -/
structure TrendFollowingParams where
  fast_span : ℤ := 10
  slow_span : ℤ := 30
  atr_period : ℤ := 14
  atr_multiplier : ℚ := 2
  min_bars : ℤ := 60

structure TrendFollowingStrategy where
  params : TrendFollowingParams

def TrendFollowingStrategy.name : String := "trend_following"

def TrendFollowingStrategy.required_columns : List String :=
  ["close", "high", "low"]

/-- Values of one column across the sorted rows.  The claims exercise
only frames whose cells are present; an absent (NaN) cell is read as 0
here, since `ℚ` cannot carry a NaN through the indicator pipeline. -/
def Frame.colValues (f : Frame) (c : String) : List ℚ :=
  f.rows.map (fun r => (alookup r.2 c).getD 0)

/-- The per-bar decision of the `iterrows` loop of `generate_signals`:
skip while ATR is NaN, BUY at an upward EMA crossover with the close
above the fast EMA, SELL at a downward crossover.  The shifted
(`prev`) EMAs are NaN at index 0, where pandas comparisons with NaN are
false. -/
def trendSignalAt (p : TrendFollowingParams) (symbol : String)
    (rows : List (ℕ × Row)) (closes fast slow : List ℚ)
    (atr : List (Option ℚ)) (i : ℕ) : Option StrategySignal :=
  match rows.get? i, closes.get? i, fast.get? i, slow.get? i, atr.get? i with
  | some r, some close, some f, some s, some (some atrValue) =>
    let prev : Option (ℚ × ℚ) :=
      if i = 0 then none
      else match fast.get? (i - 1), slow.get? (i - 1) with
        | some pf, some ps => some (pf, ps)
        | _, _ => none
    let crossoverUp : Bool :=
      decide (s < f) && (match prev with | some (pf, ps) => decide (pf ≤ ps) | none => false)
    let crossoverDown : Bool :=
      decide (f < s) && (match prev with | some (pf, ps) => decide (ps ≤ pf) | none => false)
    if crossoverUp && decide (f < close) then
      let stop_price := close - p.atr_multiplier * atrValue
      let confidence := min 1 (max 0 ((f - s) / s * 5))
      some { symbol := symbol, date := r.1,
             strategy := TrendFollowingStrategy.name, signal_type := .BUY,
             confidence := confidence,
             metadata := [("fast_ema", MVal.num f), ("slow_ema", MVal.num s),
                          ("atr", MVal.num atrValue), ("stop_price", MVal.num stop_price)] }
    else if crossoverDown then
      let confidence := min 1 (max 0 ((s - f) / s * 5))
      some { symbol := symbol, date := r.1,
             strategy := TrendFollowingStrategy.name, signal_type := .SELL,
             confidence := confidence,
             metadata := [("fast_ema", MVal.num f), ("slow_ema", MVal.num s)] }
    else none
  | _, _, _, _, _ => none

/-- `TrendFollowingStrategy.generate_signals`: empty frame → no signals;
missing required columns → `MissingFieldError`; series shorter than
`max(min_bars, slow_span + atr_period)` → no signals; otherwise EMA/ATR
crossover scanning. -/
def TrendFollowingStrategy.generate_signals (self : TrendFollowingStrategy)
    (symbol : String) (prices : Frame) : Except SysError (List StrategySignal) := do
  if prices.isEmpty then return []
  let df := prices.sortIndex
  let missing := TrendFollowingStrategy.required_columns.filter (fun c => c ∉ df.cols)
  if missing ≠ [] then throw (.missingField missing)
  let p := self.params
  if (df.rows.length : ℤ) < max p.min_bars (p.slow_span + p.atr_period) then return []
  let closes := df.colValues "close"
  let fast ← ema closes p.fast_span
  let slow ← ema closes p.slow_span
  let atr ← average_true_range (df.colValues "high") (df.colValues "low") closes p.atr_period
  return (List.range df.rows.length).filterMap
    (trendSignalAt p symbol df.rows closes fast slow atr)

/-! ## Livermore breakout strategy — `src/strategies/livermore.py` -/

/-- `LivermoreParams` with the source defaults. -/
structure LivermoreParams where
  consolidation_window : ℤ := 20
  max_range_percentage : ℚ := 3/20
  breakout_threshold : ℚ := 1/50
  volume_multiplier : ℚ := 13/10
  min_bars : ℤ := 40

structure LivermoreBreakoutStrategy where
  params : LivermoreParams

def LivermoreBreakoutStrategy.name : String := "livermore_breakout"

def LivermoreBreakoutStrategy.required_columns : List String :=
  ["close", "high", "low", "volume"]

/-- `Series.shift(1)`: each value moves one index later; index 0
becomes NaN and the final value falls off. -/
def shiftOne {al : Type} (l : List (Option al)) : List (Option al) :=
  (none :: l).take l.length

/-- The per-index decision of the `for idx in range(window, len(df))`
loop: window bounds come from the shifted rolling high/low, volume
confirmation from the shifted rolling average volume. -/
def livermoreSignalAt (p : LivermoreParams) (symbol : String)
    (rows : List (ℕ × Row)) (closes volumes : List ℚ)
    (prevHigh prevLow : List (Option ℚ)) (avgVolume : List (Option ℚ))
    (idx : ℕ) : Option StrategySignal :=
  match rows.get? idx, closes.get? idx, volumes.get? idx,
      prevHigh.get? idx, prevLow.get? idx with
  | some r, some close, some volume, some (some windowHigh), some (some windowLow) =>
    if windowHigh ≤ windowLow then none
    else
      let priceRange := windowHigh - windowLow
      if priceRange ≤ 0 then none
      else
        let rangePct := priceRange / windowLow
        if p.max_range_percentage < rangePct then none
        else
          let breakoutPrice := close
          if breakoutPrice < windowHigh * (1 + p.breakout_threshold) then none
          else
            match (if 0 < idx then avgVolume.get? (idx - 1) else none) with
            | some (some volumeAvg) =>
              if volumeAvg ≤ 0 then none
              else if volume < volumeAvg * p.volume_multiplier then none
              else
                some { symbol := symbol, date := r.1,
                       strategy := LivermoreBreakoutStrategy.name, signal_type := .BUY,
                       confidence := 1 - min 1 (rangePct / p.max_range_percentage),
                       metadata :=
                         [("consolidation_high", MVal.num windowHigh),
                          ("consolidation_low", MVal.num windowLow),
                          ("range_pct", MVal.num rangePct),
                          ("breakout_price", MVal.num breakoutPrice),
                          ("breakout_volume", MVal.num volume),
                          ("avg_volume", MVal.num volumeAvg)] }
            | _ => none
  | _, _, _, _, _ => none

/-- `LivermoreBreakoutStrategy.generate_signals`: empty frame → no
signals; missing required columns → `MissingFieldError`; series shorter
than `max(min_bars, consolidation_window + 5)` → no signals; otherwise
scan for consolidation breakouts from `consolidation_window` onward. -/
def LivermoreBreakoutStrategy.generate_signals (self : LivermoreBreakoutStrategy)
    (symbol : String) (prices : Frame) : Except SysError (List StrategySignal) := do
  if prices.isEmpty then return []
  let df := prices.sortIndex
  let missing := LivermoreBreakoutStrategy.required_columns.filter (fun c => c ∉ df.cols)
  if missing ≠ [] then throw (.missingField missing)
  let p := self.params
  if (df.rows.length : ℤ) < max p.min_bars (p.consolidation_window + 5) then return []
  let w := p.consolidation_window.toNat
  let closes := df.colValues "close"
  let volumes := df.colValues "volume"
  let prevHigh := shiftOne (rollingMax w (df.colValues "high"))
  let prevLow := shiftOne (rollingMin w (df.colValues "low"))
  let avgVolume := rollingMean w 5 volumes
  return ((List.range df.rows.length).filter (fun i => w ≤ i)).filterMap
    (livermoreSignalAt p symbol df.rows closes volumes prevHigh prevLow avgVolume)

/-! ## Drawdown monitor — `src/portfolio/drawdown_monitor.py` -/

/-- `Series.cummax()`. -/
def cummaxQ : List ℚ → List ℚ
  | [] => []
  | x :: xs => walk x xs
where
  walk : ℚ → List ℚ → List ℚ
  | m, [] => [m]
  | m, y :: ys => m :: walk (max m y) ys

/-- Minimum of a series (`Series.min()`), 0 on the empty series. -/
def listMin : List ℚ → ℚ
  | [] => 0
  | x :: xs => xs.foldl min x

/-- `calculate_drawdowns`: the drawdown series
`(equity - running_max) / running_max` and the absolute maximum
drawdown. -/
def calculate_drawdowns (equity : List ℚ) : List ℚ × ℚ :=
  match equity with
  | [] => ([], 0)
  | _ =>
    let runningMax := cummaxQ equity
    let drawdowns := List.zipWith (fun e m => (e - m) / m) equity runningMax
    (drawdowns, |listMin drawdowns|)

/-! ## Backtesting engine — `src/backtesting/engine.py` -/

/-- The `metrics` map of a `BacktestResult`. -/
structure Metrics where
  final : ℚ
  total_return : ℚ
  max_drawdown : ℚ
  num_trades : ℕ
deriving DecidableEq

inductive TradeAction where
  | BUY
  | SELL
deriving DecidableEq

/-- One trade record appended by the simulation loop; `pnl` is present
on SELL records only. -/
structure Trade where
  action : TradeAction
  symbol : String
  date : ℕ
  shares : ℚ
  price : ℚ
  value : ℚ
  fees : ℚ
  strategy : String
  pnl : Option ℚ
deriving DecidableEq

/-- `BacktestResult`: the equity curve (dates and values), the trade
log, and the metrics map. -/
structure BacktestResult where
  dates : List ℕ
  equity : List ℚ
  trades : List Trade
  metrics : Metrics
deriving DecidableEq

structure BacktestingEngine where
  transaction_cost : ℚ

/-- `BacktestingEngine.__init__`: rejects a negative
`transaction_cost`, otherwise stores it (immutable thereafter). -/
def BacktestingEngine.create (transaction_cost : ℚ) :
    Except SysError BacktestingEngine :=
  if transaction_cost < 0 then .error .negativeTransactionCost
  else .ok { transaction_cost := transaction_cost }

/-- A position-sizer output dict as the engine reads it
(`allocation.get(...)` on each of the four keys). -/
structure Alloc where
  symbol : Option String := none
  shares : Option ℤ := none
  entry_price : Option ℚ := none
  allocation : Option ℚ := none

/-- An open position held by the simulation loop. -/
structure Position where
  shares : ℤ
  entry_price : ℚ
  entry_date : ℕ
  strategy : String
  entry_fees : ℚ
deriving DecidableEq

/-- A planned entry produced by `_prepare_entries`. -/
structure Entry where
  symbol : String
  shares : ℤ
  price : ℚ
  date : ℕ
  strategy : String
deriving DecidableEq

/-- `index.is_monotonic_increasing`. -/
def isMonotone : List ℕ → Bool
  | [] => true
  | [_] => true
  | a :: b :: rest => decide (a ≤ b) && isMonotone (b :: rest)

/-- `BacktestingEngine._align_date`: first index date ≥ the target
(`searchsorted` on the sorted index), `none` when the target is beyond
the last date or the index is empty.  (`pd.NaT` has no counterpart for
`ℕ` targets.) -/
def BacktestingEngine.alignDate (target : ℕ) (index : List ℕ) : Option ℕ :=
  if index.isEmpty then none
  else
    let idx := if isMonotone index then index else List.insertionSort (fun a b => a ≤ b) index
    idx.find? (fun d => target ≤ d)

/-- `frame.loc[date, col]` for a single-level column table: the first
row at the date.  pandas raises `KeyError` on an absent date; an absent
(NaN) cell is also modelled as the lookup failing, since `ℚ` has no
NaN. -/
def Frame.loc (f : Frame) (date : ℕ) (c : String) : Except SysError ℚ :=
  match f.rows.find? (fun r => r.1 = date) with
  | some r =>
    match alookup r.2 c with
    | some v => .ok v
    | none => .error .missingPriceData
  | none => .error .missingPriceData

/-- `BacktestingEngine._get_close` for single-level columns: a plain
`close` column, then `"{symbol}_close"`, else `MissingPriceDataError`.
(The MultiIndex branches have no counterpart in the `Frame` model.) -/
def BacktestingEngine.getClose (frame : Frame) (date : ℕ) (symbol : String) :
    Except SysError ℚ :=
  if "close" ∈ frame.cols then frame.loc date "close"
  else
    let candidate := symbol ++ "_close"
    if candidate ∈ frame.cols then frame.loc date candidate
    else .error .missingPriceData

/-- `BacktestingEngine._signal_price`: first numeric metadata value
among the keys `price, entry_price, close, breakout_price` (in that
order), falling back to the bar's close. -/
def BacktestingEngine.signalPrice (signal : StrategySignal) (frame : Frame)
    (date : ℕ) (symbol : String) : Except SysError ℚ :=
  match numLookup signal.metadata "price" with
  | some v => .ok v
  | none =>
    match numLookup signal.metadata "entry_price" with
    | some v => .ok v
    | none =>
      match numLookup signal.metadata "close" with
      | some v => .ok v
      | none =>
        match numLookup signal.metadata "breakout_price" with
        | some v => .ok v
        | none => BacktestingEngine.getClose frame date symbol

/-- `BacktestingEngine._signals_by_symbol`: bucket the signals of one
type by symbol in first-appearance order, each bucket stably sorted by
date. -/
def BacktestingEngine.signalsBySymbol (signals : List StrategySignal)
    (ty : SignalType) : List (String × List StrategySignal) :=
  let grouped := signals.foldl
    (fun acc s => if s.signal_type = ty then appendVal acc s.symbol s else acc) []
  grouped.map (fun p => (p.1, List.insertionSort (fun a b => a.date ≤ b.date) p.2))

/-- `BacktestingEngine._signals_by_date`: bucket the signals of one type
by their aligned date, dropping signals aligning past the series. -/
def BacktestingEngine.signalsByDate (signals : List StrategySignal)
    (ty : SignalType) (index : List ℕ) : List (ℕ × List StrategySignal) :=
  signals.foldl
    (fun acc s =>
      if s.signal_type = ty then
        match BacktestingEngine.alignDate s.date index with
        | some d => appendVal acc d s
        | none => acc
      else acc) []

/-- `BacktestingEngine._prepare_entries`: walk the allocations, popping
each symbol's next unmatched BUY signal to get the aligned execution
date; resolve the entry price from the allocation (`entry_price`, with
Python-`or` falsiness on `None`/`0`) or the signal; derive shares from
`allocation // price` when absent; keep only positive-price,
positive-share entries. -/
def BacktestingEngine.prepareEntries (frame : Frame) (fallbackSymbol : String) :
    List Alloc → List (String × List StrategySignal) → Except SysError (List Entry)
  | [], _ => .ok []
  | alloc :: rest, buySignals =>
    let symbol := match alloc.symbol with
      | some s => if s = "" then fallbackSymbol else s
      | none => fallbackSymbol
    match alookup buySignals symbol with
    | none => BacktestingEngine.prepareEntries frame fallbackSymbol rest buySignals
    | some [] => BacktestingEngine.prepareEntries frame fallbackSymbol rest buySignals
    | some (signal :: remaining) =>
      let buySignals' := aset buySignals symbol remaining
      match BacktestingEngine.alignDate signal.date frame.dates with
      | none => BacktestingEngine.prepareEntries frame fallbackSymbol rest buySignals'
      | some alignedDate => do
        let price ← match alloc.entry_price with
          | some p =>
            if p = 0 then BacktestingEngine.signalPrice signal frame alignedDate symbol
            else pure p
          | none => BacktestingEngine.signalPrice signal frame alignedDate symbol
        if price ≤ 0 then
          BacktestingEngine.prepareEntries frame fallbackSymbol rest buySignals'
        else
          let shares : ℤ := match alloc.shares with
            | some s => s
            | none =>
              let allocationValue := alloc.allocation.getD 0
              if 0 < allocationValue then Rat.floor (allocationValue / price) else 0
          if shares ≤ 0 then
            BacktestingEngine.prepareEntries frame fallbackSymbol rest buySignals'
          else do
            let tail ← BacktestingEngine.prepareEntries frame fallbackSymbol rest buySignals'
            return { symbol := symbol, shares := shares, price := price,
                     date := alignedDate, strategy := signal.strategy } :: tail

/-- Mutable state of the simulation loop.  `pending` holds the
not-yet-executed planned entries (the un-popped part of
`entries_by_date`). -/
structure SimState where
  cash : ℚ
  positions : List (String × Position)
  trades : List Trade
  equities : List ℚ
  pending : List Entry
deriving DecidableEq

/-- One BUY fill: cap the shares at
`int(cash // (price * (1 + transaction_cost)))`, dropping the entry when
the cap is not positive; debit cost plus fees; open (or overwrite) the
symbol's position; append the BUY trade. -/
def BacktestingEngine.buyFill (tc : ℚ) (currentDate : ℕ) (st : SimState)
    (entry : Entry) : SimState :=
  if entry.shares ≤ 0 then st
  else
    let maxAffordable : ℤ := Rat.floor (st.cash / (entry.price * (1 + tc)))
    if maxAffordable ≤ 0 then st
    else
      let shares := if maxAffordable < entry.shares then maxAffordable else entry.shares
      let cost := (shares : ℚ) * entry.price
      let fees := cost * tc
      { st with
        cash := st.cash - (cost + fees)
        positions := aset st.positions entry.symbol
          { shares := shares, entry_price := entry.price, entry_date := currentDate,
            strategy := entry.strategy, entry_fees := fees }
        trades := st.trades ++
          [{ action := .BUY, symbol := entry.symbol, date := currentDate,
             shares := (shares : ℚ), price := entry.price, value := cost,
             fees := fees, strategy := entry.strategy, pnl := none }] }

/-- One SELL fill: skip symbols with no open position; resolve the sell
price from the signal; credit proceeds net of fees; close the position;
append the SELL trade carrying `pnl`. -/
def BacktestingEngine.sellFill (tc : ℚ) (frame : Frame) (currentDate : ℕ)
    (st : SimState) (sellSignal : StrategySignal) : Except SysError SimState := do
  let symbol := sellSignal.symbol
  match alookup st.positions symbol with
  | none => return st
  | some position =>
    let price ← BacktestingEngine.signalPrice sellSignal frame currentDate symbol
    let shares := position.shares
    let proceeds := (shares : ℚ) * price
    let fees := proceeds * tc
    let pnl := proceeds - fees - (shares : ℚ) * position.entry_price - position.entry_fees
    return { st with
      cash := st.cash + (proceeds - fees)
      positions := apop st.positions symbol
      trades := st.trades ++
        [{ action := .SELL, symbol := symbol, date := currentDate,
           shares := (shares : ℚ), price := price, value := proceeds,
           fees := fees, strategy := sellSignal.strategy, pnl := some pnl }] }

/-- The end-of-day mark-to-close: cash plus
`Σ position.shares × close`. -/
def BacktestingEngine.markEquity (frame : Frame) (currentDate : ℕ) :
    ℚ → List (String × Position) → Except SysError ℚ
  | acc, [] => .ok acc
  | acc, (sym, position) :: rest => do
    let price ← BacktestingEngine.getClose frame currentDate sym
    BacktestingEngine.markEquity frame currentDate
      (acc + (position.shares : ℚ) * price) rest

/-- One date of the simulation loop: today's scheduled BUY entries (the
popped `entries_by_date` bucket), then today's SELL signals, then the
equity snapshot. -/
def BacktestingEngine.dayStep (tc : ℚ) (frame : Frame)
    (sells : List (ℕ × List StrategySignal)) (st : SimState) (currentDate : ℕ) :
    Except SysError SimState := do
  let split := st.pending.partition (fun e => e.date = currentDate)
  let st1 := split.1.foldl (BacktestingEngine.buyFill tc currentDate)
    { st with pending := split.2 }
  let st2 ← ((alookup sells currentDate).getD []).foldlM
    (BacktestingEngine.sellFill tc frame currentDate) st1
  let equity ← BacktestingEngine.markEquity frame currentDate st2.cash st2.positions
  return { st2 with equities := st2.equities ++ [equity] }

/-- The `for current_date in frame.index` loop. -/
def BacktestingEngine.simulate (tc : ℚ) (frame : Frame)
    (sells : List (ℕ × List StrategySignal)) (st : SimState) (dates : List ℕ) :
    Except SysError SimState :=
  dates.foldlM (BacktestingEngine.dayStep tc frame sells) st

/-- `BacktestingEngine.run`.  The `strategy` argument models
`strategy.generate_signals`; the `position_sizer` callable is invoked
once, up front, on the full signal list (a `None` return collapses to
`[]` in the source via `or []`). -/
def BacktestingEngine.run (self : BacktestingEngine) (price_data : Frame)
    (strategy : String → Frame → Except SysError (List StrategySignal))
    (position_sizer : List StrategySignal → ℚ → List Alloc)
    (initial_capital : ℚ := 100000) (symbol : String := "ASSET") :
    Except SysError BacktestResult := do
  if price_data.isEmpty then throw .emptySeries
  if initial_capital ≤ 0 then throw .invalidCapital
  let frame := price_data.sortIndex
  let signals ← strategy symbol frame
  let allocations := position_sizer signals initial_capital
  let buySignals := BacktestingEngine.signalsBySymbol signals .BUY
  let sellSignalsByDate := BacktestingEngine.signalsByDate signals .SELL frame.dates
  let pendingEntries ← BacktestingEngine.prepareEntries frame symbol allocations buySignals
  let finalState ← BacktestingEngine.simulate self.transaction_cost frame sellSignalsByDate
    { cash := initial_capital, positions := [], trades := [], equities := [],
      pending := pendingEntries } frame.dates
  let equityValues := finalState.equities
  let maxDrawdown := (calculate_drawdowns equityValues).2
  let finalEquity := (equityValues.getLast?).getD 0
  let totalReturn := finalEquity / initial_capital - 1
  return { dates := frame.dates
           equity := equityValues
           trades := finalState.trades
           metrics := { final := finalEquity, total_return := totalReturn,
                        max_drawdown := maxDrawdown,
                        num_trades := finalState.trades.length } }

/-! ## Spec-side definitions

`specSellPriceResolution` renders the specification's words for claim
C2 (spec §4.4 with the §4.3 key precedence), to be compared with
`BacktestingEngine.signalPrice` from the source. -/

/-- The sell-price resolution as the spec states it: metadata keys in
the order `entry_price, breakout_price, price, close` — the §4.3
precedence — falling back to the bar's close. -/
def specSellPriceResolution (signal : StrategySignal) (frame : Frame)
    (date : ℕ) (symbol : String) : Except SysError ℚ :=
  match ["entry_price", "breakout_price", "price", "close"].findSome?
      (numLookup signal.metadata) with
  | some v => .ok v
  | none => BacktestingEngine.getClose frame date symbol

/-! ## Concrete scenario inputs used by the claims -/

/-- The worked engine scenario's 5-bar series: closes
`[100,102,105,108,110]` on consecutive days. -/
def workedFrame : Frame :=
  { cols := ["close", "volume"],
    rows := [(0, [("close", 100), ("volume", 1000)]),
             (1, [("close", 102), ("volume", 1100)]),
             (2, [("close", 105), ("volume", 1200)]),
             (3, [("close", 108), ("volume", 1300)]),
             (4, [("close", 110), ("volume", 1400)])] }

/-- The scenario's strategy: a BUY at day index 1 and a SELL at the last
day, each carrying the bar's close as its `price` metadata. -/
def workedStrategy : String → Frame → Except SysError (List StrategySignal) :=
  fun symbol frame =>
    if frame.rows.length < 3 then .ok []
    else .ok
      [{ symbol := symbol, date := 1, strategy := "dummy", signal_type := .BUY,
         confidence := 1/2, metadata := [("price", MVal.num 102)] },
       { symbol := symbol, date := 4, strategy := "dummy", signal_type := .SELL,
         confidence := 1/2, metadata := [("price", MVal.num 110)] }]

/-- The scenario's sizer: commit half of capital to the first BUY
signal at its metadata price. -/
def workedSizer : List StrategySignal → ℚ → List Alloc :=
  fun signals equity =>
    match signals.filter (fun s => s.signal_type = SignalType.BUY) with
    | [] => []
    | b :: _ =>
      let price := (numLookup b.metadata "price").getD 100
      let shares := Rat.floor (equity / 2 / price)
      [{ symbol := some b.symbol, shares := some shares,
         entry_price := some price, allocation := some ((shares : ℚ) * price) }]

/-- The worked scenario's engine run: zero transaction cost, 100000
initial capital. -/
def workedRun : Except SysError BacktestResult :=
  BacktestingEngine.run { transaction_cost := 0 } workedFrame workedStrategy
    workedSizer 100000 "TEST"

/-- The signals of the worked scenario, as `workedStrategy` emits them
on the 5-bar frame. -/
def workedSignals : List StrategySignal :=
  [{ symbol := "TEST", date := 1, strategy := "dummy", signal_type := .BUY,
     confidence := 1/2, metadata := [("price", MVal.num 102)] },
   { symbol := "TEST", date := 4, strategy := "dummy", signal_type := .SELL,
     confidence := 1/2, metadata := [("price", MVal.num 110)] }]

/-- The simulation state of the worked scenario after the first two
dates (so, just after the BUY fill at day index 1). -/
def workedPrefixState : Except SysError SimState := do
  let pending ← BacktestingEngine.prepareEntries workedFrame "TEST"
    (workedSizer workedSignals 100000)
    (BacktestingEngine.signalsBySymbol workedSignals .BUY)
  BacktestingEngine.simulate 0 workedFrame
    (BacktestingEngine.signalsByDate workedSignals .SELL workedFrame.dates)
    { cash := 100000, positions := [], trades := [], equities := [],
      pending := pending } [0, 1]

/-- The cash of `workedPrefixState`. -/
def workedPrefixCash : Option ℚ :=
  workedPrefixState.toOption.map (fun st => st.cash)

/-- The CAN-SLIM worked scenario's single-bar series. -/
def canslimScenarioFrame : Frame :=
  { cols := CanSlimStrategy.required_columns,
    rows := [(0, [("close", 98), ("volume", 1000000), ("earnings_growth", 3/10),
                  ("relative_strength", 9/10), ("fifty_two_week_high", 100),
                  ("average_volume", 900000), ("volume_change", 1/4)])] }

def canslimScenarioResult : Except SysError (List StrategySignal) :=
  CanSlimStrategy.generate_signals { params := {} } "AAPL" canslimScenarioFrame

/-- The SELL signal of the C2 counterexample: metadata carrying both an
`entry_price` (50) and a `price` (60). -/
def precedenceCexSell : StrategySignal :=
  { symbol := "X", date := 1, strategy := "dummy", signal_type := .SELL,
    confidence := 1/2,
    metadata := [("entry_price", MVal.num 50), ("price", MVal.num 60)] }

def precedenceCexFrame : Frame :=
  { cols := ["close"], rows := [(0, [("close", 10)]), (1, [("close", 12)])] }

def precedenceCexStrategy : String → Frame → Except SysError (List StrategySignal) :=
  fun symbol _ => .ok
    [{ symbol := symbol, date := 0, strategy := "dummy", signal_type := .BUY,
       confidence := 1/2, metadata := [("price", MVal.num 10)] },
     precedenceCexSell]

def precedenceCexSizer : List StrategySignal → ℚ → List Alloc :=
  fun _ _ =>
    [{ symbol := some "X", shares := some 10, entry_price := some 10,
       allocation := some 100 }]

def precedenceCexRun : Except SysError BacktestResult :=
  BacktestingEngine.run { transaction_cost := 0 } precedenceCexFrame
    precedenceCexStrategy precedenceCexSizer 1000 "X"

/-- The C9 counterexample's strategy: BUY at 10, then a SELL whose
metadata carries the numeric price `-5`. -/
def negativePriceStrategy : String → Frame → Except SysError (List StrategySignal) :=
  fun symbol _ => .ok
    [{ symbol := symbol, date := 0, strategy := "dummy", signal_type := .BUY,
       confidence := 1/2, metadata := [("price", MVal.num 10)] },
     { symbol := symbol, date := 1, strategy := "dummy", signal_type := .SELL,
       confidence := 1/2, metadata := [("price", MVal.num (-5))] }]

/-! ## Claim theorems -/

/-- C1.  Worked engine scenario: with closes `[100,102,105,108,110]`,
`initial_capital = 100000`, `transaction_cost = 0`, a half-capital sizer,
a BUY executed at day index 1 and a SELL on the last day: the BUY fills
`⌊50000/102⌋ = 490` shares costing `49980` (cash `50020` after the first
two simulated days), the SELL yields `490 × 110 = 53900`, and the result
has `final = 103920`, `total_return = 103920/100000 - 1`,
`num_trades = 2`, `max_drawdown = 0`. -/
theorem engine_worked_scenario :
    (workedRun.toOption.map (fun r => r.metrics.final) = some 103920)
    ∧ (workedRun.toOption.map (fun r => r.metrics.total_return) =
        some (103920 / 100000 - 1))
    ∧ (workedRun.toOption.map (fun r => r.metrics.num_trades) = some 2)
    ∧ (workedRun.toOption.map (fun r => r.metrics.max_drawdown) = some 0)
    ∧ (workedRun.toOption.map
        (fun r => r.trades.map (fun t => (t.action, t.shares, t.price, t.value))) =
        some [(TradeAction.BUY, 490, 102, 49980), (TradeAction.SELL, 490, 110, 53900)])
    ∧ (Rat.floor (50000 / 102) = 490)
    ∧ (workedPrefixCash = some 50020) := by
  refine ⟨?_, ?_, ?_, ?_, ?_, ?_, ?_⟩ <;> with_unfolding_all rfl

/-- C6.  CAN-SLIM worked scenario: on the bar `close=98,
earnings_growth=0.30, relative_strength=0.9, fifty_two_week_high=100,
volume_change=0.25` with default parameters (equal quarter-weights),
the component scores are `1/4`, `9/40 = 0.225`, `13/60 ≈ 0.2167` and
`1/4`; the total `113/120 ≈ 0.9417` meets `min_score = 3/4`, and exactly
one BUY signal is emitted, dated at the latest bar, with confidence
equal to the total. -/
theorem canslim_worked_scenario :
    (canslimScenarioResult.toOption.map
      (fun l => l.map (fun s => (s.date, s.signal_type, s.strategy, s.confidence))) =
      some [(0, SignalType.BUY, "can_slim", 113/120)])
    ∧ (canslimScenarioResult.toOption.map
        (fun l => l.map (fun s =>
          (numLookup s.metadata "earnings_score",
           numLookup s.metadata "relative_strength_score",
           numLookup s.metadata "price_near_high_score",
           numLookup s.metadata "volume_increase_score",
           numLookup s.metadata "total_score"))) =
        some [(some (1/4), some (9/40), some (13/60), some (1/4), some (113/120))])
    ∧ ((1 : ℚ)/4 + 9/40 + 13/60 + 1/4 = 113/120)
    ∧ ((3 : ℚ)/4 ≤ 113/120) := by
  refine ⟨?_, ?_, ?_, ?_⟩ <;> with_unfolding_all rfl

/-- C2, counterexample.  The claim says every SELL fill resolves its
price with the key precedence `entry_price, breakout_price, price,
close` — the position sizer's order.  In this concrete run the SELL
signal's metadata holds `entry_price = 50` and `price = 60`; the engine
records the SELL trade at price 60 (it tries `price` first), while the
claimed precedence yields 50. -/
theorem sell_price_precedence_counterexample :
    (precedenceCexRun.toOption.map
      (fun r => r.trades.map (fun t => (t.action, t.price))) =
      some [(TradeAction.BUY, 10), (TradeAction.SELL, 60)])
    ∧ (specSellPriceResolution precedenceCexSell precedenceCexFrame 1 "X" = .ok 50)
    ∧ ((60 : ℚ) ≠ 50) := by
  refine ⟨?_, ?_, ?_⟩
  · with_unfolding_all rfl
  · with_unfolding_all rfl
  · with_unfolding_all decide

/-- C2, amended.  For every SELL fill during an engine run the sell
price is resolved from the signal's metadata by trying the keys in the
order `price, entry_price, close, breakout_price` — a different
precedence from the position sizer's `entry_price, breakout_price,
price, close` — falling back to the bar's close price when none of the
keys holds a numeric value. -/
theorem sell_price_resolution_amended :
    ∀ (signal : StrategySignal) (frame : Frame) (date : ℕ) (symbol : String),
      (BacktestingEngine.signalPrice signal frame date symbol =
        match ["price", "entry_price", "close", "breakout_price"].findSome?
            (numLookup signal.metadata) with
        | some v => .ok v
        | none => BacktestingEngine.getClose frame date symbol)
      ∧ (PositionSizer.extractPrice signal =
          ["entry_price", "breakout_price", "price", "close"].findSome?
            (numLookup signal.metadata)) := by
  intro signal frame date symbol
  constructor
  · cases h1 : numLookup signal.metadata "price" <;>
      cases h2 : numLookup signal.metadata "entry_price" <;>
        cases h3 : numLookup signal.metadata "close" <;>
          cases h4 : numLookup signal.metadata "breakout_price" <;>
            simp [BacktestingEngine.signalPrice, List.findSome?, h1, h2, h3, h4]
  · cases h1 : numLookup signal.metadata "entry_price" <;>
      cases h2 : numLookup signal.metadata "breakout_price" <;>
        cases h3 : numLookup signal.metadata "price" <;>
          cases h4 : numLookup signal.metadata "close" <;>
            simp [PositionSizer.extractPrice, List.findSome?, h1, h2, h3, h4]

/-- C8.  `BacktestingEngine.run` fails with `EmptySeriesError` on an
empty series, and with `InvalidCapitalError` when
`initial_capital ≤ 0` (the series emptiness guard runs first), in both
cases producing an error instead of any result; construction fails
exactly when `transaction_cost` is negative and otherwise stores it. -/
theorem engine_error_guards :
    (∀ (e : BacktestingEngine) (pd : Frame)
        (strat : String → Frame → Except SysError (List StrategySignal))
        (sizer : List StrategySignal → ℚ → List Alloc) (cap : ℚ) (sym : String),
      pd.isEmpty = true → e.run pd strat sizer cap sym = .error .emptySeries)
    ∧ (∀ (e : BacktestingEngine) (pd : Frame)
        (strat : String → Frame → Except SysError (List StrategySignal))
        (sizer : List StrategySignal → ℚ → List Alloc) (cap : ℚ) (sym : String),
      pd.isEmpty = false → cap ≤ 0 → e.run pd strat sizer cap sym = .error .invalidCapital)
    ∧ (∀ tc : ℚ, BacktestingEngine.create tc = .error .negativeTransactionCost ↔ tc < 0)
    ∧ (∀ tc : ℚ, 0 ≤ tc →
        BacktestingEngine.create tc = .ok { transaction_cost := tc }) := by
  refine ⟨?_, ?_, ?_, ?_⟩
  · intro e pd strat sizer cap sym h
    simp only [BacktestingEngine.run, h, if_true, reduceIte]
    rfl
  · intro e pd strat sizer cap sym h hcap
    simp only [BacktestingEngine.run, h, Bool.false_eq_true, if_false, reduceIte, if_pos hcap]
    rfl
  · intro tc
    constructor
    · intro h
      by_contra hneg
      simp [BacktestingEngine.create, hneg] at h
    · intro h
      simp [BacktestingEngine.create, h]
  · intro tc h
    have : ¬ tc < 0 := not_lt.mpr h
    simp [BacktestingEngine.create, this]

/-- C8 witness: the guards at concrete inputs — an empty frame, the
worked frame with zero capital, and transaction costs `-1` and `0`. -/
theorem engine_error_guards_witness :
    (BacktestingEngine.run { transaction_cost := 0 } { cols := [], rows := [] }
      (fun _ _ => .ok []) (fun _ _ => []) 100000 "X" = .error .emptySeries)
    ∧ (BacktestingEngine.run { transaction_cost := 0 } workedFrame
      (fun _ _ => .ok []) (fun _ _ => []) 0 "X" = .error .invalidCapital)
    ∧ (BacktestingEngine.create (-1) = .error .negativeTransactionCost)
    ∧ (BacktestingEngine.create 0 = .ok { transaction_cost := 0 }) :=
  ⟨engine_error_guards.1 _ _ _ _ _ _ (by with_unfolding_all rfl),
   engine_error_guards.2.1 _ _ _ _ _ _ (by with_unfolding_all rfl) (by norm_num),
   (engine_error_guards.2.2.1 (-1)).mpr (by norm_num),
   engine_error_guards.2.2.2 0 (by norm_num)⟩

/-- `sort_index` keeps the column axis. -/
theorem Frame.cols_sortIndex (f : Frame) : f.sortIndex.cols = f.cols := rfl

/-- `sort_index` keeps the number of rows. -/
theorem Frame.length_sortIndex (f : Frame) :
    f.sortIndex.rows.length = f.rows.length := by
  simp [Frame.sortIndex, List.length_insertionSort]

/-- C7, counterexample.  The claim demands a `MissingFieldError`
whenever the series lacks a required column; but every strategy checks
`prices.empty` first, so the empty series — which lacks `close`, a
required field — yields an empty signal list instead of the error. -/
theorem strategy_empty_series_counterexample :
    (CanSlimStrategy.generate_signals { params := {} } "X"
      { cols := [], rows := [] } = .ok [])
    ∧ ("close" ∈ CanSlimStrategy.required_columns)
    ∧ (CanSlimStrategy.required_columns.filter
        (fun c => c ∉ ({ cols := [], rows := [] } : Frame).cols) ≠ []) := by
  refine ⟨?_, ?_, ?_⟩
  · with_unfolding_all rfl
  · with_unfolding_all decide
  · with_unfolding_all decide

/-- C7, amended.  For the three strategies: an empty series returns an
empty signal sequence (the emptiness guard runs before the column
check); a non-empty series lacking required columns fails with a
`MissingFieldError` naming exactly the absent columns in
`required_columns` order; and a series with all required columns that
is shorter than the strategy's minimum lookback (for CAN-SLIM, one bar)
returns an empty sequence, not an error. -/
theorem strategy_guard_behavior :
    ∀ (cs : CanSlimStrategy) (tf : TrendFollowingStrategy)
      (lv : LivermoreBreakoutStrategy) (sym : String) (prices : Frame),
      (prices.isEmpty = true →
        cs.generate_signals sym prices = .ok []
        ∧ tf.generate_signals sym prices = .ok []
        ∧ lv.generate_signals sym prices = .ok [])
      ∧ (prices.isEmpty = false →
          (CanSlimStrategy.required_columns.filter (fun c => c ∉ prices.cols) ≠ [] →
            cs.generate_signals sym prices = .error (.missingField
              (CanSlimStrategy.required_columns.filter (fun c => c ∉ prices.cols))))
          ∧ (TrendFollowingStrategy.required_columns.filter (fun c => c ∉ prices.cols) ≠ [] →
              tf.generate_signals sym prices = .error (.missingField
                (TrendFollowingStrategy.required_columns.filter (fun c => c ∉ prices.cols))))
          ∧ (LivermoreBreakoutStrategy.required_columns.filter (fun c => c ∉ prices.cols) ≠ [] →
              lv.generate_signals sym prices = .error (.missingField
                (LivermoreBreakoutStrategy.required_columns.filter (fun c => c ∉ prices.cols)))))
      ∧ (TrendFollowingStrategy.required_columns.filter (fun c => c ∉ prices.cols) = [] →
          (prices.rows.length : ℤ) <
              max tf.params.min_bars (tf.params.slow_span + tf.params.atr_period) →
          tf.generate_signals sym prices = .ok [])
      ∧ (LivermoreBreakoutStrategy.required_columns.filter (fun c => c ∉ prices.cols) = [] →
          (prices.rows.length : ℤ) <
              max lv.params.min_bars (lv.params.consolidation_window + 5) →
          lv.generate_signals sym prices = .ok [])
      ∧ (prices.rows.length < 1 → cs.generate_signals sym prices = .ok []) := by
  intro cs tf lv sym prices
  have hcols : prices.sortIndex.cols = prices.cols := rfl
  refine ⟨?_, ?_, ?_, ?_, ?_⟩
  · intro h
    refine ⟨?_, ?_, ?_⟩ <;>
      (simp only [CanSlimStrategy.generate_signals,
        TrendFollowingStrategy.generate_signals,
        LivermoreBreakoutStrategy.generate_signals, h, reduceIte]) <;> rfl
  · intro h
    refine ⟨?_, ?_, ?_⟩ <;> intro hm
    · simp only [CanSlimStrategy.generate_signals, h, Bool.false_eq_true, reduceIte,
        hcols, if_pos hm]
    · simp only [TrendFollowingStrategy.generate_signals, h, Bool.false_eq_true, reduceIte,
        hcols, if_pos hm]
      rfl
    · simp only [LivermoreBreakoutStrategy.generate_signals, h, Bool.false_eq_true, reduceIte,
        hcols, if_pos hm]
      rfl
  · intro hm hlen
    cases he : prices.isEmpty with
    | true =>
      simp only [TrendFollowingStrategy.generate_signals, he, reduceIte]
      rfl
    | false =>
      rw [← Frame.length_sortIndex] at hlen
      simp only [TrendFollowingStrategy.generate_signals, he, Bool.false_eq_true, reduceIte,
        hcols, hm, ne_eq, not_true_eq_false, if_false, if_pos hlen]
      rfl
  · intro hm hlen
    cases he : prices.isEmpty with
    | true =>
      simp only [LivermoreBreakoutStrategy.generate_signals, he, reduceIte]
      rfl
    | false =>
      rw [← Frame.length_sortIndex] at hlen
      simp only [LivermoreBreakoutStrategy.generate_signals, he, Bool.false_eq_true, reduceIte,
        hcols, hm, ne_eq, not_true_eq_false, if_false, if_pos hlen]
      rfl
  · intro hlen
    have h : prices.isEmpty = true := by
      cases hr : prices.rows with
      | nil => simp [Frame.isEmpty, hr]
      | cons a l => rw [hr] at hlen; simp at hlen
    simp only [CanSlimStrategy.generate_signals, h, reduceIte]

/-- A three-column, one-bar frame: all trend-following columns present
but far fewer bars than the minimum lookback. -/
def tfShortFrame : Frame :=
  { cols := ["close", "high", "low"],
    rows := [(0, [("close", 10), ("high", 11), ("low", 9)])] }

/-- C7 witness: the guards at concrete inputs — a non-empty frame with
a single unrelated column makes CAN-SLIM fail naming every required
column, and a one-bar frame with all columns makes trend-following
return no signals. -/
theorem strategy_guard_behavior_witness :
    (CanSlimStrategy.generate_signals { params := {} } "X"
      { cols := ["x"], rows := [(0, [])] } =
      .error (.missingField (CanSlimStrategy.required_columns.filter
        (fun c => c ∉ ({ cols := ["x"], rows := [(0, [])] } : Frame).cols))))
    ∧ (TrendFollowingStrategy.generate_signals { params := {} } "X" tfShortFrame = .ok []) :=
  ⟨((strategy_guard_behavior { params := {} } { params := {} } { params := {} } "X"
      { cols := ["x"], rows := [(0, [])] }).2.1 (by with_unfolding_all rfl)).1
      (by with_unfolding_all decide),
   (strategy_guard_behavior { params := {} } { params := {} } { params := {} } "X"
      tfShortFrame).2.2.1 (by with_unfolding_all decide) (by with_unfolding_all decide)⟩

/-! ## Association-list and sizing lemmas -/

theorem alookup_mem {κ α : Type} [DecidableEq κ] :
    ∀ (m : List (κ × α)) (k : κ) (v : α), alookup m k = some v → (k, v) ∈ m := by
  intro m
  induction m with
  | nil => intro k v h; simp [alookup] at h
  | cons p rest ih =>
    intro k v h
    obtain ⟨k', v'⟩ := p
    by_cases hk : k' = k
    · rw [alookup, if_pos hk] at h
      injection h with h2
      subst hk
      subst h2
      exact List.mem_cons_self _ _
    · rw [alookup, if_neg hk] at h
      exact List.mem_cons_of_mem _ (ih k v h)

theorem alookup_aset {κ α : Type} [DecidableEq κ] :
    ∀ (m : List (κ × α)) (k k' : κ) (v : α),
      alookup (aset m k v) k' = if k = k' then some v else alookup m k' := by
  intro m
  induction m with
  | nil =>
    intro k k' v
    simp only [aset, alookup]
  | cons p rest ih =>
    intro k k' v
    by_cases hk : p.1 = k
    · rw [show p = (p.1, p.2) from rfl, aset, if_pos hk]
      by_cases hk' : k = k'
      · simp [alookup, hk']
      · simp [alookup, hk', hk ▸ hk']
    · rw [show p = (p.1, p.2) from rfl, aset, if_neg hk]
      by_cases hp' : p.1 = k'
      · have : ¬ k = k' := fun h => hk (h ▸ hp')
        simp [alookup, hp', this]
      · simp [alookup, hp', ih]

theorem alookup_map_zero {κ α : Type} [DecidableEq κ] :
    ∀ (m : List (κ × α)) (k : κ),
      (alookup (m.map (fun p => (p.1, (0 : ℚ)))) k).getD 0 = 0 := by
  intro m
  induction m with
  | nil => intro k; simp [alookup]
  | cons p rest ih =>
    intro k
    by_cases hk : p.1 = k
    · simp [alookup, hk]
    · simp only [List.map_cons, alookup, hk, if_neg hk]
      exact ih k

/-- Total `allocation` recorded for one sector. -/
def allocSum (l : List PositionAllocation) (σ : String) : ℚ :=
  ((l.filter (fun a => a.sector = σ)).map (fun a => a.allocation)).sum

theorem allocSum_append (l : List PositionAllocation) (a : PositionAllocation)
    (σ : String) :
    allocSum (l ++ [a]) σ = allocSum l σ + (if a.sector = σ then a.allocation else 0) := by
  by_cases h : a.sector = σ <;> simp [allocSum, List.filter_append, h]

/-- With non-negative configured limits, every resolved sector limit is
non-negative (the `1.0` fallback included). -/
theorem getSectorLimit_nonneg (self : PositionSizer)
    (hlim : ∀ p ∈ self.risk_config.sector_limits, 0 ≤ p.2) (σ : String) :
    0 ≤ self.getSectorLimit σ := by
  unfold PositionSizer.getSectorLimit
  cases h1 : alookup self.risk_config.sector_limits σ with
  | some v => exact hlim _ (alookup_mem _ _ _ h1)
  | none =>
    cases h2 : alookup self.risk_config.sector_limits "other" with
    | some v => simpa using hlim _ (alookup_mem _ _ _ h2)
    | none => simp

/-- The sizing loop's books: the `sector_allocated` tracker equals the
recorded per-sector allocation total, and that total respects the
sector cap. -/
def sectorInvariant (self : PositionSizer) (account_equity : ℚ)
    (st : SizerState) : Prop :=
  ∀ σ : String,
    (alookup st.sector_allocated σ).getD 0 = allocSum st.allocations σ
    ∧ allocSum st.allocations σ ≤ account_equity * self.getSectorLimit σ

theorem sizeStep_sectorInvariant (self : PositionSizer) (account_equity : ℚ)
    (base_allocation : ℚ) (sector_map : List (String × String))
    (st : SizerState) (signal : StrategySignal)
    (h : sectorInvariant self account_equity st) :
    sectorInvariant self account_equity
      (self.sizeStep account_equity base_allocation sector_map st signal) := by
  unfold PositionSizer.sizeStep
  cases hp : PositionSizer.extractPrice signal with
  | none => exact h
  | some price =>
    by_cases h1 : price ≤ 0
    · simp only [if_pos h1]; exact h
    · simp only [if_neg h1]
      set sector := ((alookup sector_map signal.symbol).getD "other").toLower with hsec
      set current := (alookup st.sector_allocated sector).getD 0 with hcur
      by_cases h2 : account_equity * self.getSectorLimit sector - current ≤ 0
      · simp only [if_pos h2]; exact h
      · simp only [if_neg h2]
        set budget := min base_allocation (account_equity * self.getSectorLimit sector - current)
          with hbud
        by_cases h3 : Rat.floor (budget / price) ≤ 0
        · simp only [if_pos h3]; exact h
        · simp only [if_neg h3]
          intro σ
          have hval : ((Rat.floor (budget / price) : ℤ) : ℚ) * price ≤ budget := by
            have hfl : ((Rat.floor (budget / price) : ℤ) : ℚ) ≤ budget / price :=
              Rat.le_floor.mp (le_refl _)
            have hpos : (0 : ℚ) < price := lt_of_not_ge h1
            calc ((Rat.floor (budget / price) : ℤ) : ℚ) * price
                ≤ budget / price * price :=
                  mul_le_mul_of_nonneg_right hfl (le_of_lt hpos)
              _ = budget := div_mul_cancel₀ budget (ne_of_gt hpos)
          constructor
          · rw [alookup_aset, allocSum_append]
            by_cases hσ : sector = σ
            · subst hσ
              rw [hcur, (h sector).1]
              simp
            · simp only [if_neg hσ, add_zero]
              exact (h σ).1
          · rw [allocSum_append]
            by_cases hσ : sector = σ
            · subst hσ
              have hcs : current = allocSum st.allocations sector := by
                rw [hcur]; exact (h sector).1
              have hrem : ((Rat.floor (budget / price) : ℤ) : ℚ) * price ≤
                  account_equity * self.getSectorLimit sector - current :=
                le_trans hval (min_le_right _ _)
              simp only [if_pos rfl, eq_self_iff_true, if_true, ite_true]
              push_cast at hrem ⊢
              linarith [hrem, hcs]
            · simp only [if_neg hσ, add_zero]
              exact (h σ).2

theorem sizeLoop_sectorInvariant (self : PositionSizer) (account_equity : ℚ)
    (base_allocation : ℚ) (max_positions : ℤ)
    (sector_map : List (String × String)) :
    ∀ (signals : List StrategySignal) (st : SizerState),
      sectorInvariant self account_equity st →
      sectorInvariant self account_equity
        (self.sizeLoop account_equity base_allocation max_positions sector_map
          st signals) := by
  intro signals
  induction signals with
  | nil => intro st h; exact h
  | cons s rest ih =>
    intro st h
    unfold PositionSizer.sizeLoop
    by_cases hb : max_positions ≤ st.total_positions
    · simp only [if_pos hb]; exact h
    · simp only [if_neg hb]
      exact ih _ (sizeStep_sectorInvariant self account_equity base_allocation
        sector_map st s h)

/-- C3.  For every sizing call with positive `account_equity` over a
risk configuration whose sector limits are non-negative (the spec's
interface gives them in `(0,1]`), and for every sector, the sum of the
returned allocations' `allocation` values in that sector never exceeds
`account_equity ×` that sector's resolved limit
(`sector_limits[sector]` → `sector_limits["other"]` → `1.0`); over `ℚ`
the bound is exact, so the floating "rounding epsilon" margin is not
even needed. -/
theorem sizer_sector_cap_invariant :
    ∀ (self : PositionSizer) (signals : List StrategySignal)
      (account_equity : ℚ) (sector_map : List (String × String)) (σ : String),
      0 < account_equity →
      (∀ p ∈ self.risk_config.sector_limits, 0 ≤ p.2) →
      allocSum (self.size_positions signals account_equity sector_map) σ ≤
        account_equity * self.getSectorLimit σ := by
  intro self signals account_equity sector_map σ heq hlim
  have hinit : sectorInvariant self account_equity
      { allocations := []
        sector_allocated := self.risk_config.sector_limits.map (fun p => (p.1, (0 : ℚ)))
        total_positions := 0 } := by
    intro σ'
    constructor
    · simp [allocSum, alookup_map_zero]
    · simp only [allocSum, List.filter_nil, List.map_nil, List.sum_nil]
      exact mul_nonneg (le_of_lt heq) (getSectorLimit_nonneg self hlim σ')
  unfold PositionSizer.size_positions
  rw [if_neg (not_le.mpr heq)]
  exact (sizeLoop_sectorInvariant self account_equity _ _ sector_map _ _ hinit σ).2

/-- The C3 witness's sizer: a five-position book with a half-capped
`tech` sector. -/
def capWitnessSizer : PositionSizer :=
  { risk_config :=
      { max_positions := 5
        individual_stop := 1/10
        portfolio_stop := 1/5
        sector_limits := [("tech", 1/2)] } }

/-- C3 witness: a concrete sizing call — one BUY signal in the
half-capped `tech` sector over equity 1000 — satisfies the hypotheses,
and the theorem bounds the `tech` allocation total by the sector cap. -/
theorem sizer_sector_cap_invariant_witness :
    (0 : ℚ) < 1000
    ∧ (∀ p ∈ capWitnessSizer.risk_config.sector_limits, 0 ≤ p.2)
    ∧ allocSum
        (capWitnessSizer.size_positions
          [{ symbol := "A", date := 0, strategy := "s", signal_type := .BUY,
             confidence := 1/2, metadata := [("entry_price", MVal.num 10)] }]
          1000 [("A", "tech")]) "tech" ≤
        1000 * capWitnessSizer.getSectorLimit "tech" :=
  ⟨by norm_num,
   by
     intro p hp
     simp [capWitnessSizer] at hp
     rw [hp]
     norm_num,
   sizer_sector_cap_invariant _ _ _ _ _ (by norm_num)
     (by
       intro p hp
       simp [capWitnessSizer] at hp
       rw [hp]
       norm_num)⟩

/-! ## Weighted-average bounds (aggregator) -/

theorem weighted_sum_le (w : StrategySignal → ℚ) (M : ℚ) :
    ∀ g : List StrategySignal, (∀ s ∈ g, 0 ≤ w s) → (∀ s ∈ g, s.confidence ≤ M) →
      (g.map (fun s => w s * s.confidence)).sum ≤ M * (g.map w).sum := by
  intro g
  induction g with
  | nil => intro _ _; simp
  | cons s rest ih =>
    intro hw hM
    simp only [List.map_cons, List.sum_cons]
    have h1 : w s * s.confidence ≤ M * w s := by
      calc w s * s.confidence ≤ w s * M :=
            mul_le_mul_of_nonneg_left (hM s (by simp)) (hw s (by simp))
        _ = M * w s := mul_comm _ _
    have h2 := ih (fun x hx => hw x (List.mem_cons_of_mem _ hx))
      (fun x hx => hM x (List.mem_cons_of_mem _ hx))
    calc w s * s.confidence + (rest.map (fun x => w x * x.confidence)).sum
        ≤ M * w s + M * (rest.map w).sum := add_le_add h1 h2
      _ = M * (w s + (rest.map w).sum) := by ring

theorem le_weighted_sum (w : StrategySignal → ℚ) (m : ℚ) :
    ∀ g : List StrategySignal, (∀ s ∈ g, 0 ≤ w s) → (∀ s ∈ g, m ≤ s.confidence) →
      m * (g.map w).sum ≤ (g.map (fun s => w s * s.confidence)).sum := by
  intro g
  induction g with
  | nil => intro _ _; simp
  | cons s rest ih =>
    intro hw hm
    simp only [List.map_cons, List.sum_cons]
    have h1 : m * w s ≤ w s * s.confidence := by
      calc m * w s = w s * m := mul_comm _ _
        _ ≤ w s * s.confidence :=
            mul_le_mul_of_nonneg_left (hm s (by simp)) (hw s (by simp))
    have h2 := ih (fun x hx => hw x (List.mem_cons_of_mem _ hx))
      (fun x hx => hm x (List.mem_cons_of_mem _ hx))
    calc m * (w s + (rest.map w).sum) = m * w s + m * (rest.map w).sum := by ring
      _ ≤ w s * s.confidence + (rest.map (fun x => w x * x.confidence)).sum :=
          add_le_add h1 h2

/-- C10.  For every aggregated group whose looked-up strategy weights
are all non-negative, the emitted signal's confidence lies between any
lower bound `m` and upper bound `M` of the contributing confidences —
so between their minimum and maximum — and in particular in `[0,1]`
whenever every contributing confidence is. -/
theorem aggregated_confidence_bounds :
    ∀ (self : SignalAggregator) (symbol : String) (ty : SignalType)
      (g : List StrategySignal) (conf : ℚ),
      (∀ s ∈ g, 0 ≤ lookupWeight self.params.weighting s.strategy) →
      (self.combineSignals symbol ty g).map (fun o => o.confidence) = some conf →
      (∀ m M : ℚ, (∀ s ∈ g, m ≤ s.confidence ∧ s.confidence ≤ M) →
        m ≤ conf ∧ conf ≤ M)
      ∧ ((∀ s ∈ g, 0 ≤ s.confidence ∧ s.confidence ≤ 1) →
        0 ≤ conf ∧ conf ≤ 1) := by
  intro self symbol ty g conf hw hc
  have hWnn : 0 ≤ self.totalWeight g := by
    apply List.sum_nonneg
    intro x hx
    obtain ⟨s, hs, rfl⟩ := List.mem_map.mp hx
    exact hw s hs
  unfold SignalAggregator.combineSignals at hc
  by_cases hW : self.totalWeight g = 0
  · rw [if_pos hW] at hc
    exact absurd hc (by simp)
  · rw [if_neg hW] at hc
    by_cases hmin : self.weightedConfidence g / self.totalWeight g <
        self.params.min_confidence
    · rw [if_pos hmin] at hc
      simp at hc
    · rw [if_neg hmin] at hc
      simp only [Option.map_some] at hc
      injection hc with hconf
      have hWpos : 0 < self.totalWeight g := lt_of_le_of_ne hWnn (Ne.symm hW)
      have main : ∀ m M : ℚ, (∀ s ∈ g, m ≤ s.confidence ∧ s.confidence ≤ M) →
          m ≤ conf ∧ conf ≤ M := by
        intro m M hb
        constructor
        · rw [← hconf]
          rw [le_div_iff₀ hWpos]
          exact le_weighted_sum _ m g hw (fun s hs => (hb s hs).1)
        · rw [← hconf]
          rw [div_le_iff₀ hWpos]
          exact weighted_sum_le _ M g hw (fun s hs => (hb s hs).2)
      exact ⟨main, fun hb => main 0 1 hb⟩

/-- The C10 witness's group: two unit-weight signals with confidences
`4/5` and `3/5`, whose weighted average is `7/10`. -/
def confWitnessGroup : List StrategySignal :=
  [{ symbol := "A", date := 0, strategy := "a", signal_type := .BUY,
     confidence := 4/5, metadata := [] },
   { symbol := "A", date := 1, strategy := "b", signal_type := .BUY,
     confidence := 3/5, metadata := [] }]

/-- C10 witness: the theorem at the concrete two-signal group — default
weights are non-negative, the combined confidence is `7/10`, and it
lies in `[0,1]`. -/
theorem aggregated_confidence_bounds_witness :
    (∀ s ∈ confWitnessGroup,
      0 ≤ lookupWeight ({ params := {} } : SignalAggregator).params.weighting s.strategy)
    ∧ ((({ params := {} } : SignalAggregator).combineSignals "A" .BUY
        confWitnessGroup).map (fun o => o.confidence) = some (7/10))
    ∧ (0 ≤ (7/10 : ℚ) ∧ (7/10 : ℚ) ≤ 1) :=
  ⟨by with_unfolding_all decide,
   by with_unfolding_all rfl,
   (aggregated_confidence_bounds { params := {} } "A" .BUY confWitnessGroup (7/10)
     (by with_unfolding_all decide) (by with_unfolding_all rfl)).2
     (by with_unfolding_all decide)⟩

/-! ## Equity-curve bookkeeping lemmas (engine) -/

theorem exceptOkBind {er al be : Type} (a : al) (f : al → Except er be) :
    (Except.ok a >>= f) = f a := rfl

theorem exceptErrorBind {er al be : Type} (e : er) (f : al → Except er be) :
    ((Except.error e : Except er al) >>= f) = Except.error e := rfl

theorem buyFill_equities (tc : ℚ) (d : ℕ) (st : SimState) (e : Entry) :
    (BacktestingEngine.buyFill tc d st e).equities = st.equities := by
  simp only [BacktestingEngine.buyFill]
  split
  · rfl
  · split <;> rfl

theorem foldl_buyFill_equities (tc : ℚ) (d : ℕ) :
    ∀ (l : List Entry) (st : SimState),
      (l.foldl (BacktestingEngine.buyFill tc d) st).equities = st.equities := by
  intro l
  induction l with
  | nil => intro st; rfl
  | cons e rest ih =>
    intro st
    rw [List.foldl_cons, ih, buyFill_equities]

theorem sellFill_equities (tc : ℚ) (frame : Frame) (d : ℕ) (st : SimState)
    (sig : StrategySignal) (st' : SimState)
    (h : BacktestingEngine.sellFill tc frame d st sig = .ok st') :
    st'.equities = st.equities := by
  simp only [BacktestingEngine.sellFill] at h
  split at h
  · injection h with h
    rw [← h]
  · cases hp : BacktestingEngine.signalPrice sig frame d sig.symbol with
    | error e =>
      rw [hp, exceptErrorBind] at h
      cases h
    | ok price =>
      rw [hp, exceptOkBind] at h
      injection h with h
      rw [← h]

theorem foldlM_sellFill_equities (tc : ℚ) (frame : Frame) (d : ℕ) :
    ∀ (l : List StrategySignal) (st st' : SimState),
      l.foldlM (BacktestingEngine.sellFill tc frame d) st = .ok st' →
      st'.equities = st.equities := by
  intro l
  induction l with
  | nil =>
    intro st st' h
    injection h with h
    rw [← h]
  | cons sig rest ih =>
    intro st st' h
    rw [List.foldlM_cons] at h
    cases hs : BacktestingEngine.sellFill tc frame d st sig with
    | error e =>
      rw [hs, exceptErrorBind] at h
      cases h
    | ok st1 =>
      rw [hs, exceptOkBind] at h
      rw [ih st1 st' h, sellFill_equities tc frame d st sig st1 hs]

theorem dayStep_equities_length (tc : ℚ) (frame : Frame)
    (sells : List (ℕ × List StrategySignal)) (st : SimState) (d : ℕ)
    (st' : SimState)
    (h : BacktestingEngine.dayStep tc frame sells st d = .ok st') :
    st'.equities.length = st.equities.length + 1 := by
  simp only [BacktestingEngine.dayStep] at h
  cases hsell : ((alookup sells d).getD []).foldlM
      (BacktestingEngine.sellFill tc frame d)
      ((st.pending.partition (fun e => e.date = d)).1.foldl
        (BacktestingEngine.buyFill tc d)
        { st with pending := (st.pending.partition (fun e => e.date = d)).2 }) with
  | error e =>
    rw [hsell, exceptErrorBind] at h
    cases h
  | ok st2 =>
    rw [hsell, exceptOkBind] at h
    cases hm : BacktestingEngine.markEquity frame d st2.cash st2.positions with
    | error e =>
      rw [hm, exceptErrorBind] at h
      cases h
    | ok equity =>
      rw [hm, exceptOkBind] at h
      injection h with h
      have h2 : st2.equities = st.equities := by
        rw [foldlM_sellFill_equities tc frame d _ _ _ hsell,
          foldl_buyFill_equities]
      rw [← h]
      simp [h2]

theorem simulate_equities_length (tc : ℚ) (frame : Frame)
    (sells : List (ℕ × List StrategySignal)) :
    ∀ (ds : List ℕ) (st st' : SimState),
      BacktestingEngine.simulate tc frame sells st ds = .ok st' →
      st'.equities.length = st.equities.length + ds.length := by
  intro ds
  induction ds with
  | nil =>
    intro st st' h
    injection h with h
    rw [← h]
    simp
  | cons d rest ih =>
    intro st st' h
    unfold BacktestingEngine.simulate at h
    rw [List.foldlM_cons] at h
    cases hd : BacktestingEngine.dayStep tc frame sells st d with
    | error e =>
      rw [hd, exceptErrorBind] at h
      cases h
    | ok st1 =>
      rw [hd, exceptOkBind] at h
      have h1 := ih st1 st' h
      rw [h1, dayStep_equities_length tc frame sells st d st1 hd]
      simp [Nat.add_assoc, Nat.add_comm 1]

theorem exceptPureBind {er al be : Type} (a : al) (f : al → Except er be) :
    ((pure a : Except er al) >>= f) = f a := rfl

theorem exceptMapOk {er al be : Type} (f : al → be) (a : al) :
    (f <$> (Except.ok a : Except er al)) = Except.ok (f a) := rfl

theorem exceptMapError {er al be : Type} (f : al → be) (e : er) :
    (f <$> (Except.error e : Except er al)) = Except.error e := rfl

/-- C4.  For every engine run that returns a result, the equity curve
has exactly one entry per date of the input series — its length equals
the series length whatever the trade activity, and, for an input series
that respects the `PriceSeries` date-ordering invariant, its date index
is the series' dates in the same order. -/
theorem equity_curve_alignment :
    ∀ (e : BacktestingEngine) (pd : Frame)
      (strat : String → Frame → Except SysError (List StrategySignal))
      (sizer : List StrategySignal → ℚ → List Alloc)
      (cap : ℚ) (sym : String) (r : BacktestResult),
      e.run pd strat sizer cap sym = .ok r →
      r.equity.length = pd.rows.length
      ∧ (List.Sorted (fun a b => a.1 ≤ b.1) pd.rows →
          r.dates = pd.rows.map Prod.fst) := by
  intro e pd strat sizer cap sym r h
  simp only [BacktestingEngine.run] at h
  by_cases h1 : pd.isEmpty = true
  · rw [if_pos h1] at h
    exact absurd (show (Except.error SysError.emptySeries :
      Except SysError BacktestResult) = Except.ok r from h) (by simp)
  · rw [if_neg h1] at h
    by_cases h2 : cap ≤ 0
    · rw [if_pos h2] at h
      exact absurd (show (Except.error SysError.invalidCapital :
        Except SysError BacktestResult) = Except.ok r from h) (by simp)
    · rw [if_neg h2] at h
      cases hs : strat sym pd.sortIndex with
      | error er =>
        rw [hs, exceptErrorBind] at h
        cases h
      | ok signals =>
        rw [hs, exceptOkBind] at h
        cases hp : BacktestingEngine.prepareEntries pd.sortIndex sym
            (sizer signals cap)
            (BacktestingEngine.signalsBySymbol signals SignalType.BUY) with
        | error er =>
          rw [hp, exceptErrorBind] at h
          cases h
        | ok pending =>
          rw [hp, exceptOkBind] at h
          cases hsim : BacktestingEngine.simulate e.transaction_cost pd.sortIndex
              (BacktestingEngine.signalsByDate signals SignalType.SELL
                pd.sortIndex.dates)
              { cash := cap, positions := [], trades := [], equities := [],
                pending := pending } pd.sortIndex.dates with
          | error er =>
            rw [hsim, exceptPureBind, exceptPureBind, exceptErrorBind] at h
            cases h
          | ok finalState =>
            rw [hsim, exceptPureBind, exceptPureBind, exceptOkBind] at h
            injection h with h
            have hlen := simulate_equities_length e.transaction_cost pd.sortIndex
              (BacktestingEngine.signalsByDate signals SignalType.SELL
                pd.sortIndex.dates) pd.sortIndex.dates _ _ hsim
            constructor
            · rw [← h]
              simp only [hlen]
              simp [Frame.dates, Frame.sortIndex, List.length_insertionSort]
            · intro hsorted
              rw [← h]
              show pd.sortIndex.dates = pd.rows.map Prod.fst
              unfold Frame.dates Frame.sortIndex
              rw [List.Sorted.insertionSort_eq hsorted]

/-- A one-bar frame with no signals, for the C4 witness. -/
def flatFrame : Frame := { cols := ["close"], rows := [(0, [("close", 10)])] }

/-- The C4 witness's run: no strategy signals over `flatFrame`. -/
def flatRun : Except SysError BacktestResult :=
  BacktestingEngine.run { transaction_cost := 0 } flatFrame
    (fun _ _ => .ok []) (fun _ _ => []) 100 "X"

/-- The C4 witness's expected result: a flat one-entry curve. -/
def flatResult : BacktestResult :=
  { dates := [0], equity := [100], trades := [],
    metrics := { final := 100, total_return := 0, max_drawdown := 0,
                 num_trades := 0 } }

/-- C4 witness: the theorem at the concrete signal-free run — the curve
has one entry per input date and carries exactly the input dates. -/
theorem equity_curve_alignment_witness :
    (flatRun = .ok flatResult)
    ∧ (flatResult.equity.length = flatFrame.rows.length)
    ∧ (List.Sorted (fun a b => a.1 ≤ b.1) flatFrame.rows)
    ∧ (flatResult.dates = flatFrame.rows.map Prod.fst) :=
  ⟨by with_unfolding_all rfl,
   (equity_curve_alignment { transaction_cost := 0 } flatFrame
     (fun _ _ => .ok []) (fun _ _ => []) 100 "X" flatResult
     (by with_unfolding_all rfl)).1,
   by simp [flatFrame],
   (equity_curve_alignment { transaction_cost := 0 } flatFrame
     (fun _ _ => .ok []) (fun _ _ => []) 100 "X" flatResult
     (by with_unfolding_all rfl)).2 (by simp [flatFrame])⟩

/-! ## Cash non-negativity (engine) -/

/-- The signals of the C9 counterexample. -/
def negPriceSignals : List StrategySignal :=
  [{ symbol := "X", date := 0, strategy := "dummy", signal_type := .BUY,
     confidence := 1/2, metadata := [("price", MVal.num 10)] },
   { symbol := "X", date := 1, strategy := "dummy", signal_type := .SELL,
     confidence := 1/2, metadata := [("price", MVal.num (-5))] }]

/-- The simulation of the C9 counterexample (capital 100, zero
transaction cost, a 10-share BUY at 10, then a SELL resolved at the
metadata price `-5`). -/
def negPriceSimulate : Except SysError SimState := do
  let pending ← BacktestingEngine.prepareEntries precedenceCexFrame "X"
    (precedenceCexSizer negPriceSignals 100)
    (BacktestingEngine.signalsBySymbol negPriceSignals .BUY)
  BacktestingEngine.simulate 0 precedenceCexFrame
    (BacktestingEngine.signalsByDate negPriceSignals .SELL precedenceCexFrame.dates)
    { cash := 100, positions := [], trades := [], equities := [],
      pending := pending } precedenceCexFrame.dates

/-- C9, counterexample.  With non-negative (zero) transaction cost, a
SELL whose metadata carries the numeric price `-5` drives the simulated
cash to `-50`: SELL fills do not only increase cash, and the cash
balance ends negative (the run's final marked equity equals that
negative cash). -/
theorem cash_nonnegativity_counterexample :
    (negPriceSimulate.toOption.map (fun st => st.cash) = some (-50))
    ∧ ((BacktestingEngine.run { transaction_cost := 0 } precedenceCexFrame
        negativePriceStrategy precedenceCexSizer 100 "X").toOption.map
        (fun r => r.metrics.final) = some (-50))
    ∧ ((-50 : ℚ) < 0) := by
  refine ⟨?_, ?_, ?_⟩
  · with_unfolding_all rfl
  · with_unfolding_all rfl
  · with_unfolding_all decide

theorem aset_mem {κ α : Type} [DecidableEq κ] :
    ∀ (m : List (κ × α)) (k : κ) (v : α) (x : κ × α),
      x ∈ aset m k v → x = (k, v) ∨ x ∈ m := by
  intro m
  induction m with
  | nil =>
    intro k v x hx
    simp [aset] at hx
    left
    exact hx
  | cons p rest ih =>
    intro k v x hx
    by_cases hk : p.1 = k
    · rw [show p = (p.1, p.2) from rfl, aset, if_pos hk] at hx
      rcases List.mem_cons.mp hx with h | h
      · left; exact h
      · right; exact List.mem_cons_of_mem _ h
    · rw [show p = (p.1, p.2) from rfl, aset, if_neg hk] at hx
      rcases List.mem_cons.mp hx with h | h
      · right; rw [h]; exact List.mem_cons_self _ _
      · rcases ih k v x h with h' | h'
        · left; exact h'
        · right; exact List.mem_cons_of_mem _ h'

theorem apop_mem {κ α : Type} [DecidableEq κ] :
    ∀ (m : List (κ × α)) (k : κ) (x : κ × α), x ∈ apop m k → x ∈ m := by
  intro m
  induction m with
  | nil => intro k x hx; simp [apop] at hx
  | cons p rest ih =>
    intro k x hx
    by_cases hk : p.1 = k
    · rw [show p = (p.1, p.2) from rfl, apop, if_pos hk] at hx
      exact List.mem_cons_of_mem _ hx
    · rw [show p = (p.1, p.2) from rfl, apop, if_neg hk] at hx
      rcases List.mem_cons.mp hx with h | h
      · rw [h]; exact List.mem_cons_self _ _
      · exact List.mem_cons_of_mem _ (ih k x h)

theorem numLookup_mem :
    ∀ (m : Metadata) (k : String) (q : ℚ),
      numLookup m k = some q → (k, MVal.num q) ∈ m := by
  intro m k q h
  unfold numLookup at h
  cases halo : alookup m k with
  | none => rw [halo] at h; cases h
  | some v =>
    rw [halo] at h
    cases v with
    | num q' =>
      injection h with h
      rw [← h]
      exact alookup_mem _ _ _ halo
    | str s => cases h
    | list l => cases h

/-- A resolved signal price is non-negative when the signal's numeric
metadata values and the frame's close prices are. -/
theorem signalPrice_nonneg (sig : StrategySignal) (frame : Frame) (d : ℕ)
    (sym : String) (q : ℚ)
    (hmeta : ∀ p ∈ sig.metadata, ∀ v : ℚ, p.2 = MVal.num v → 0 ≤ v)
    (hclose : ∀ date s q', BacktestingEngine.getClose frame date s = .ok q' → 0 ≤ q')
    (h : BacktestingEngine.signalPrice sig frame d sym = .ok q) : 0 ≤ q := by
  have hnum : ∀ k v, numLookup sig.metadata k = some v → 0 ≤ v := by
    intro k v hk
    exact hmeta _ (numLookup_mem _ _ _ hk) v rfl
  unfold BacktestingEngine.signalPrice at h
  cases h1 : numLookup sig.metadata "price" with
  | some v => rw [h1] at h; injection h with h; rw [← h]; exact hnum _ _ h1
  | none =>
    rw [h1] at h
    cases h2 : numLookup sig.metadata "entry_price" with
    | some v => rw [h2] at h; injection h with h; rw [← h]; exact hnum _ _ h2
    | none =>
      rw [h2] at h
      cases h3 : numLookup sig.metadata "close" with
      | some v => rw [h3] at h; injection h with h; rw [← h]; exact hnum _ _ h3
      | none =>
        rw [h3] at h
        cases h4 : numLookup sig.metadata "breakout_price" with
        | some v => rw [h4] at h; injection h with h; rw [← h]; exact hnum _ _ h4
        | none =>
          rw [h4] at h
          exact hclose _ _ _ h

/-- The simulation-loop state facts that keep cash non-negative: cash
is non-negative, every open position has non-negative shares, and every
pending entry has a positive price (as `_prepare_entries`
guarantees). -/
def cashInvariant (st : SimState) : Prop :=
  0 ≤ st.cash
  ∧ (∀ pos ∈ st.positions, 0 ≤ pos.2.shares)
  ∧ (∀ e ∈ st.pending, 0 < e.price)

theorem buyFill_cashInvariant (tc : ℚ) (d : ℕ) (st : SimState) (entry : Entry)
    (htc : 0 ≤ tc) (hpr : 0 < entry.price) (h : cashInvariant st) :
    cashInvariant (BacktestingEngine.buyFill tc d st entry) := by
  have hx : 0 < entry.price * (1 + tc) := mul_pos hpr (by linarith)
  simp only [BacktestingEngine.buyFill]
  split
  · exact h
  · split
    · exact h
    · rename_i hs hm
      refine ⟨?_, ?_, ?_⟩
      · show 0 ≤ st.cash -
          ((((if Rat.floor (st.cash / (entry.price * (1 + tc))) < entry.shares
              then Rat.floor (st.cash / (entry.price * (1 + tc)))
              else entry.shares) : ℤ) : ℚ) * entry.price +
            (((if Rat.floor (st.cash / (entry.price * (1 + tc))) < entry.shares
              then Rat.floor (st.cash / (entry.price * (1 + tc)))
              else entry.shares) : ℤ) : ℚ) * entry.price * tc)
        set maxAff := Rat.floor (st.cash / (entry.price * (1 + tc))) with hma
        set shares : ℤ := if maxAff < entry.shares then maxAff else entry.shares
          with hshdef
        have hsh_le : shares ≤ maxAff := by
          rw [hshdef]
          split
          · exact le_refl _
          · rename_i hc; exact not_lt.mp hc
        have hfloor : ((maxAff : ℤ) : ℚ) ≤ st.cash / (entry.price * (1 + tc)) := by
          rw [hma]; exact Rat.le_floor.mp (le_refl _)
        have hspend : ((shares : ℤ) : ℚ) * (entry.price * (1 + tc)) ≤ st.cash := by
          calc ((shares : ℤ) : ℚ) * (entry.price * (1 + tc))
              ≤ st.cash / (entry.price * (1 + tc)) * (entry.price * (1 + tc)) :=
                mul_le_mul_of_nonneg_right
                  (le_trans (Int.cast_le.mpr hsh_le) hfloor) (le_of_lt hx)
            _ = st.cash := div_mul_cancel₀ _ (ne_of_gt hx)
        have hexp : ((shares : ℤ) : ℚ) * entry.price +
            ((shares : ℤ) : ℚ) * entry.price * tc =
            ((shares : ℤ) : ℚ) * (entry.price * (1 + tc)) := by ring
        linarith [hspend, hexp.ge, hexp.le]
      · intro pos hpos
        rcases aset_mem _ _ _ _ hpos with h' | h'
        · rw [h']
          show 0 ≤ (if Rat.floor (st.cash / (entry.price * (1 + tc))) < entry.shares
            then Rat.floor (st.cash / (entry.price * (1 + tc)))
            else entry.shares)
          split
          · exact le_of_lt (not_le.mp hm)
          · exact le_of_lt (not_le.mp hs)
        · exact h.2.1 pos h'
      · intro e he
        exact h.2.2 e he

theorem foldl_buyFill_cashInvariant (tc : ℚ) (d : ℕ) (htc : 0 ≤ tc) :
    ∀ (l : List Entry) (st : SimState), (∀ e ∈ l, 0 < e.price) →
      cashInvariant st →
      cashInvariant (l.foldl (BacktestingEngine.buyFill tc d) st) := by
  intro l
  induction l with
  | nil => intro st _ h; exact h
  | cons e rest ih =>
    intro st hl h
    rw [List.foldl_cons]
    exact ih _ (fun x hx => hl x (List.mem_cons_of_mem _ hx))
      (buyFill_cashInvariant tc d st e htc (hl e (by simp)) h)

theorem sellFill_cashInvariant (tc : ℚ) (frame : Frame) (d : ℕ)
    (st st' : SimState) (sig : StrategySignal) (htc1 : tc ≤ 1)
    (hmeta : ∀ p ∈ sig.metadata, ∀ v : ℚ, p.2 = MVal.num v → 0 ≤ v)
    (hclose : ∀ date s q', BacktestingEngine.getClose frame date s = .ok q' → 0 ≤ q')
    (h : cashInvariant st)
    (hsf : BacktestingEngine.sellFill tc frame d st sig = .ok st') :
    cashInvariant st' ∧ st.cash ≤ st'.cash := by
  simp only [BacktestingEngine.sellFill] at hsf
  split at hsf
  · injection hsf with hsf
    rw [← hsf]
    exact ⟨h, le_refl _⟩
  · rename_i position hlook
    cases hp : BacktestingEngine.signalPrice sig frame d sig.symbol with
    | error er =>
      rw [hp, exceptErrorBind] at hsf
      cases hsf
    | ok price =>
      rw [hp, exceptOkBind] at hsf
      injection hsf with hsf
      have hprice : 0 ≤ price := signalPrice_nonneg sig frame d sig.symbol price hmeta hclose hp
      have hshares : 0 ≤ position.shares :=
        h.2.1 (sig.symbol, position) (alookup_mem _ _ _ hlook)
      have hdelta : 0 ≤ ((position.shares : ℤ) : ℚ) * price -
          ((position.shares : ℤ) : ℚ) * price * tc := by
        have hsp : 0 ≤ ((position.shares : ℤ) : ℚ) * price :=
          mul_nonneg (by exact_mod_cast hshares) hprice
        calc (0 : ℚ) ≤ ((position.shares : ℤ) : ℚ) * price * (1 - tc) :=
              mul_nonneg hsp (by linarith)
          _ = ((position.shares : ℤ) : ℚ) * price -
              ((position.shares : ℤ) : ℚ) * price * tc := by ring
      constructor
      · rw [← hsf]
        refine ⟨?_, ?_, ?_⟩
        · show 0 ≤ st.cash + (((position.shares : ℤ) : ℚ) * price -
            ((position.shares : ℤ) : ℚ) * price * tc)
          linarith [h.1]
        · intro pos hpos
          exact h.2.1 pos (apop_mem _ _ _ hpos)
        · intro e he
          exact h.2.2 e he
      · rw [← hsf]
        show st.cash ≤ st.cash + (((position.shares : ℤ) : ℚ) * price -
          ((position.shares : ℤ) : ℚ) * price * tc)
        linarith

theorem foldlM_sellFill_cashInvariant (tc : ℚ) (frame : Frame) (d : ℕ)
    (htc1 : tc ≤ 1)
    (hclose : ∀ date s q', BacktestingEngine.getClose frame date s = .ok q' → 0 ≤ q') :
    ∀ (l : List StrategySignal) (st st' : SimState),
      (∀ s ∈ l, ∀ p ∈ s.metadata, ∀ v : ℚ, p.2 = MVal.num v → 0 ≤ v) →
      cashInvariant st →
      l.foldlM (BacktestingEngine.sellFill tc frame d) st = .ok st' →
      cashInvariant st' := by
  intro l
  induction l with
  | nil =>
    intro st st' _ h hf
    injection hf with hf
    rw [← hf]
    exact h
  | cons sig rest ih =>
    intro st st' hl h hf
    rw [List.foldlM_cons] at hf
    cases hs : BacktestingEngine.sellFill tc frame d st sig with
    | error er =>
      rw [hs, exceptErrorBind] at hf
      cases hf
    | ok st1 =>
      rw [hs, exceptOkBind] at hf
      exact ih st1 st' (fun s hx => hl s (List.mem_cons_of_mem _ hx))
        (sellFill_cashInvariant tc frame d st st1 sig htc1
          (hl sig (by simp)) hclose h hs).1 hf

theorem dayStep_cashInvariant (tc : ℚ) (frame : Frame)
    (sells : List (ℕ × List StrategySignal)) (st : SimState) (d : ℕ)
    (st' : SimState) (htc0 : 0 ≤ tc) (htc1 : tc ≤ 1)
    (hclose : ∀ date s q', BacktestingEngine.getClose frame date s = .ok q' → 0 ≤ q')
    (hsells : ∀ dd l, alookup sells dd = some l →
      ∀ s ∈ l, ∀ p ∈ s.metadata, ∀ v : ℚ, p.2 = MVal.num v → 0 ≤ v)
    (h : cashInvariant st)
    (hd : BacktestingEngine.dayStep tc frame sells st d = .ok st') :
    cashInvariant st' := by
  simp only [BacktestingEngine.dayStep] at hd
  have hsplit : cashInvariant
      { st with pending := (st.pending.partition (fun e => e.date = d)).2 } := by
    refine ⟨h.1, h.2.1, ?_⟩
    intro e he
    rw [List.partition_eq_filter_filter] at he
    exact h.2.2 e (List.mem_of_mem_filter he)
  have hbuy : cashInvariant
      ((st.pending.partition (fun e => e.date = d)).1.foldl
        (BacktestingEngine.buyFill tc d)
        { st with pending := (st.pending.partition (fun e => e.date = d)).2 }) := by
    apply foldl_buyFill_cashInvariant tc d htc0 _ _ _ hsplit
    intro e he
    rw [List.partition_eq_filter_filter] at he
    exact h.2.2 e (List.mem_of_mem_filter he)
  have hmetaAll : ∀ s ∈ (alookup sells d).getD [],
      ∀ p ∈ s.metadata, ∀ v : ℚ, p.2 = MVal.num v → 0 ≤ v := by
    cases halo : alookup sells d with
    | none => intro s hs; simp at hs
    | some l =>
      intro s hs
      exact hsells d l halo s (by simpa using hs)
  cases hsell : ((alookup sells d).getD []).foldlM
      (BacktestingEngine.sellFill tc frame d)
      ((st.pending.partition (fun e => e.date = d)).1.foldl
        (BacktestingEngine.buyFill tc d)
        { st with pending := (st.pending.partition (fun e => e.date = d)).2 }) with
  | error e =>
    rw [hsell, exceptErrorBind] at hd
    cases hd
  | ok st2 =>
    rw [hsell, exceptOkBind] at hd
    have h2 : cashInvariant st2 :=
      foldlM_sellFill_cashInvariant tc frame d htc1 hclose _ _ _ hmetaAll hbuy hsell
    cases hm : BacktestingEngine.markEquity frame d st2.cash st2.positions with
    | error e =>
      rw [hm, exceptErrorBind] at hd
      cases hd
    | ok equity =>
      rw [hm, exceptOkBind] at hd
      injection hd with hd
      rw [← hd]
      exact ⟨h2.1, h2.2.1, h2.2.2⟩

theorem simulate_cashInvariant (tc : ℚ) (frame : Frame)
    (sells : List (ℕ × List StrategySignal)) (htc0 : 0 ≤ tc) (htc1 : tc ≤ 1)
    (hclose : ∀ date s q', BacktestingEngine.getClose frame date s = .ok q' → 0 ≤ q')
    (hsells : ∀ dd l, alookup sells dd = some l →
      ∀ s ∈ l, ∀ p ∈ s.metadata, ∀ v : ℚ, p.2 = MVal.num v → 0 ≤ v) :
    ∀ (ds : List ℕ) (st st' : SimState),
      cashInvariant st →
      BacktestingEngine.simulate tc frame sells st ds = .ok st' →
      cashInvariant st' := by
  intro ds
  induction ds with
  | nil =>
    intro st st' h hf
    injection hf with hf
    rw [← hf]
    exact h
  | cons d rest ih =>
    intro st st' h hf
    unfold BacktestingEngine.simulate at hf
    rw [List.foldlM_cons] at hf
    cases hd : BacktestingEngine.dayStep tc frame sells st d with
    | error e =>
      rw [hd, exceptErrorBind] at hf
      cases hf
    | ok st1 =>
      rw [hd, exceptOkBind] at hf
      exact ih st1 st'
        (dayStep_cashInvariant tc frame sells st d st1 htc0 htc1 hclose hsells h hd) hf

/-- C9, amended.  Throughout every engine simulation with
`transaction_cost` in `[0,1]`, over a frame whose close prices are
non-negative and sell signals whose numeric metadata values are
non-negative: every BUY fill caps its shares at
`⌊cash/(price×(1+tc))⌋` (dropping the entry when the cap is zero) and so
keeps cash non-negative; every SELL fill changes cash by
`proceeds × (1−tc) ≥ 0`, so only increases it; hence a non-negative
cash balance and the open-position/pending-entry facts are preserved by
each fill and by every simulated day — at every equity snapshot the
cash is non-negative.  (Without the price conditions the claim fails:
see the counterexample.) -/
theorem cash_nonnegativity_amended :
    ∀ (tc : ℚ) (frame : Frame) (sells : List (ℕ × List StrategySignal)),
      0 ≤ tc → tc ≤ 1 →
      (∀ date s q, BacktestingEngine.getClose frame date s = .ok q → 0 ≤ q) →
      (∀ d l, alookup sells d = some l →
        ∀ s ∈ l, ∀ p ∈ s.metadata, ∀ v : ℚ, p.2 = MVal.num v → 0 ≤ v) →
      (∀ (d : ℕ) (st : SimState) (entry : Entry),
        cashInvariant st → 0 < entry.price →
        cashInvariant (BacktestingEngine.buyFill tc d st entry))
      ∧ (∀ (d : ℕ) (st st' : SimState) (sig : StrategySignal),
          (∀ p ∈ sig.metadata, ∀ v : ℚ, p.2 = MVal.num v → 0 ≤ v) →
          cashInvariant st →
          BacktestingEngine.sellFill tc frame d st sig = .ok st' →
          cashInvariant st' ∧ st.cash ≤ st'.cash)
      ∧ (∀ (ds : List ℕ) (st st' : SimState),
          cashInvariant st →
          BacktestingEngine.simulate tc frame sells st ds = .ok st' →
          0 ≤ st'.cash) := by
  intro tc frame sells htc0 htc1 hclose hsells
  refine ⟨?_, ?_, ?_⟩
  · intro d st entry h hpr
    exact buyFill_cashInvariant tc d st entry htc0 hpr h
  · intro d st st' sig hmeta h hsf
    exact sellFill_cashInvariant tc frame d st st' sig htc1 hmeta hclose h hsf
  · intro ds st st' h hf
    exact (simulate_cashInvariant tc frame sells htc0 htc1 hclose hsells ds st st' h hf).1

/-- A column-free one-bar frame for the C9 witness. -/
def cashWitnessFrame : Frame := { cols := [], rows := [(0, [])] }

def cashWitnessInit : SimState :=
  { cash := 100, positions := [], trades := [], equities := [], pending := [] }

def cashWitnessFinal : SimState :=
  { cash := 100, positions := [], trades := [], equities := [100], pending := [] }

/-- C9 witness: the amended theorem at a concrete one-day simulation
with no fills — the final cash is non-negative. -/
theorem cash_nonnegativity_amended_witness :
    (BacktestingEngine.simulate 0 cashWitnessFrame [] cashWitnessInit [0] =
      .ok cashWitnessFinal)
    ∧ (0 ≤ cashWitnessFinal.cash) :=
  ⟨by with_unfolding_all rfl,
   (cash_nonnegativity_amended 0 cashWitnessFrame [] (le_refl 0) (by norm_num)
     (fun date s q h => by simp [BacktestingEngine.getClose, cashWitnessFrame] at h)
     (fun d l h => by simp [alookup] at h)).2.2 [0] cashWitnessInit cashWitnessFinal
     ⟨by norm_num [cashWitnessInit], by simp [cashWitnessInit], by simp [cashWitnessInit]⟩
     (by with_unfolding_all rfl)⟩

/-! ## Aggregator grouping lemmas -/

theorem dedupFirst_go_mem {α : Type} [DecidableEq α] :
    ∀ (l seen : List α) (x : α),
      x ∈ dedupFirst.go seen l ↔ (x ∈ l ∧ x ∉ seen) := by
  intro l
  induction l with
  | nil => intro seen x; simp [dedupFirst.go]
  | cons y ys ih =>
    intro seen x
    by_cases hy : y ∈ seen
    · rw [dedupFirst.go, if_pos hy, ih]
      constructor
      · intro ⟨h1, h2⟩
        exact ⟨List.mem_cons_of_mem _ h1, h2⟩
      · intro ⟨h1, h2⟩
        rcases List.mem_cons.mp h1 with h | h
        · exact absurd (h ▸ hy) h2
        · exact ⟨h, h2⟩
    · rw [dedupFirst.go, if_neg hy]
      constructor
      · intro h
        rcases List.mem_cons.mp h with h | h
        · exact ⟨h ▸ List.mem_cons_self _ _, h ▸ hy⟩
        · have := (ih (y :: seen) x).mp h
          exact ⟨List.mem_cons_of_mem _ this.1,
            fun hc => this.2 (List.mem_cons_of_mem _ hc)⟩
      · intro ⟨h1, h2⟩
        rcases List.mem_cons.mp h1 with h | h
        · exact h ▸ List.mem_cons_self _ _
        · by_cases hxy : x = y
          · exact hxy ▸ List.mem_cons_self _ _
          · exact List.mem_cons_of_mem _ ((ih (y :: seen) x).mpr
              ⟨h, fun hc => (List.mem_cons.mp hc).elim hxy h2⟩)

theorem dedupFirst_mem {α : Type} [DecidableEq α] (l : List α) (x : α) :
    x ∈ dedupFirst l ↔ x ∈ l := by
  unfold dedupFirst
  rw [dedupFirst_go_mem]
  simp

theorem dedupFirst_go_nodup {α : Type} [DecidableEq α] :
    ∀ (l seen : List α), (dedupFirst.go seen l).Nodup := by
  intro l
  induction l with
  | nil => intro seen; simp [dedupFirst.go]
  | cons y ys ih =>
    intro seen
    by_cases hy : y ∈ seen
    · rw [dedupFirst.go, if_pos hy]
      exact ih seen
    · rw [dedupFirst.go, if_neg hy]
      refine List.nodup_cons.mpr ⟨?_, ih (y :: seen)⟩
      intro hc
      exact ((dedupFirst_go_mem ys (y :: seen) y).mp hc).2 (List.mem_cons_self _ _)

theorem dedupFirst_nodup {α : Type} [DecidableEq α] (l : List α) :
    (dedupFirst l).Nodup :=
  dedupFirst_go_nodup l []

theorem groupKeys_mem (signals : List StrategySignal) (sym : String)
    (ty : SignalType) :
    (sym, ty) ∈ SignalAggregator.groupKeys signals ↔
      ∃ s ∈ signals, s.symbol = sym ∧ s.signal_type = ty := by
  unfold SignalAggregator.groupKeys
  constructor
  · intro h
    rcases List.mem_flatMap.mp h with ⟨sym', hsym', hmem⟩
    rcases List.mem_map.mp hmem with ⟨ty', hty', heq⟩
    have hsymeq : sym' = sym := congrArg Prod.fst heq
    have htyeq : ty' = ty := congrArg Prod.snd heq
    subst hsymeq
    subst htyeq
    rcases List.mem_map.mp ((dedupFirst_mem _ _).mp hty') with ⟨s, hs, hsty⟩
    rcases List.mem_filter.mp hs with ⟨hsig, hpred⟩
    exact ⟨s, hsig, by simpa using hpred, hsty⟩
  · intro ⟨s, hs, h1, h2⟩
    apply List.mem_flatMap.mpr
    refine ⟨sym, (dedupFirst_mem _ _).mpr (List.mem_map.mpr ⟨s, hs, h1⟩), ?_⟩
    apply List.mem_map.mpr
    refine ⟨ty, (dedupFirst_mem _ _).mpr (List.mem_map.mpr ⟨s, ?_, h2⟩), rfl⟩
    exact List.mem_filter.mpr ⟨hs, by simpa using h1⟩

theorem groupKeys_nodup (signals : List StrategySignal) :
    (SignalAggregator.groupKeys signals).Nodup := by
  unfold SignalAggregator.groupKeys
  apply List.nodup_flatMap.mpr
  constructor
  · intro sym hsym
    exact (dedupFirst_nodup _).map (fun a b hab => congrArg Prod.snd hab)
  · apply List.Pairwise.imp ?_ (dedupFirst_nodup (signals.map (fun s => s.symbol)))
    intro a b hab
    intro k hka hkb
    rcases List.mem_map.mp hka with ⟨ta, _, hta⟩
    rcases List.mem_map.mp hkb with ⟨tb, _, htb⟩
    exact hab (congrArg Prod.fst (hta.trans htb.symm))

/-- The exact record `_combine_signals` emits when the group
survives. -/
def combinedRecord (self : SignalAggregator) (symbol : String)
    (ty : SignalType) (g : List StrategySignal) : StrategySignal :=
  { symbol := symbol
    date := (g.map (fun s => s.date)).foldl max 0
    strategy := "aggregated"
    signal_type := ty
    confidence := self.weightedConfidence g / self.totalWeight g
    metadata :=
      aset (aset ((collectMeta g).map (fun p => (p.1, MVal.list p.2)))
        "strategies" (MVal.list (g.map (fun s => MVal.str s.strategy))))
        "confidence_values" (MVal.list (g.map (fun s => MVal.num s.confidence))) }

theorem combineSignals_eq_none (self : SignalAggregator) (symbol : String)
    (ty : SignalType) (g : List StrategySignal)
    (h : self.totalWeight g = 0 ∨
      self.weightedConfidence g / self.totalWeight g < self.params.min_confidence) :
    self.combineSignals symbol ty g = none := by
  unfold SignalAggregator.combineSignals
  rcases h with h | h
  · rw [if_pos h]
  · by_cases h0 : self.totalWeight g = 0
    · rw [if_pos h0]
    · rw [if_neg h0, if_pos h]

theorem combineSignals_eq_some (self : SignalAggregator) (symbol : String)
    (ty : SignalType) (g : List StrategySignal)
    (h0 : ¬ self.totalWeight g = 0)
    (h1 : ¬ self.weightedConfidence g / self.totalWeight g <
      self.params.min_confidence) :
    self.combineSignals symbol ty g = some (combinedRecord self symbol ty g) := by
  unfold SignalAggregator.combineSignals combinedRecord
  rw [if_neg h0, if_neg h1]

theorem combineSignals_some_fields (self : SignalAggregator) (symbol : String)
    (ty : SignalType) (g : List StrategySignal) (out : StrategySignal)
    (h : self.combineSignals symbol ty g = some out) :
    out.symbol = symbol ∧ out.signal_type = ty := by
  unfold SignalAggregator.combineSignals at h
  by_cases h0 : self.totalWeight g = 0
  · rw [if_pos h0] at h; cases h
  · rw [if_neg h0] at h
    by_cases h1 : self.weightedConfidence g / self.totalWeight g <
        self.params.min_confidence
    · rw [if_pos h1] at h; cases h
    · rw [if_neg h1] at h
      injection h with h
      rw [← h]
      exact ⟨rfl, rfl⟩

/-- The emitted signals matching one key come only from that key's
group: the filtered `aggregate` output is the key's combined signal. -/
theorem filterMap_keys_filter (self : SignalAggregator)
    (signals : List StrategySignal) (sym : String) (ty : SignalType) :
    ∀ (keys : List (String × SignalType)), keys.Nodup →
      ((keys.filterMap fun k =>
          self.combineSignals k.1 k.2 (groupOf signals k.1 k.2)).filter
        (fun o => o.symbol = sym ∧ o.signal_type = ty)) =
      if (sym, ty) ∈ keys then
        (self.combineSignals sym ty (groupOf signals sym ty)).toList
      else [] := by
  intro keys
  induction keys with
  | nil => intro _; simp
  | cons k ks ih =>
    intro hnd
    obtain ⟨k1, k2⟩ := k
    rcases List.nodup_cons.mp hnd with ⟨hk, hks⟩
    by_cases hkey : k1 = sym ∧ k2 = ty
    · obtain ⟨rfl, rfl⟩ := hkey
      cases hc : self.combineSignals k1 k2 (groupOf signals k1 k2) with
      | none =>
        rw [List.filterMap_cons_none (by exact hc), ih hks, if_neg hk,
          if_pos (List.mem_cons_self _ _)]
        rfl
      | some o =>
        rw [List.filterMap_cons_some (by exact hc),
          if_pos (List.mem_cons_self _ _), List.filter_cons]
        have hf := combineSignals_some_fields self k1 k2 _ o hc
        rw [if_pos (by simp [hf.1, hf.2]), ih hks, if_neg hk]
        rfl
    · cases hc : self.combineSignals k1 k2 (groupOf signals k1 k2) with
      | none =>
        rw [List.filterMap_cons_none (by exact hc), ih hks]
        by_cases hmem : (sym, ty) ∈ ks
        · rw [if_pos hmem, if_pos (List.mem_cons_of_mem _ hmem)]
        · rw [if_neg hmem, if_neg ?_]
          intro hcontra
          rcases List.mem_cons.mp hcontra with h | h
          · exact hkey ⟨(congrArg Prod.fst h).symm, (congrArg Prod.snd h).symm⟩
          · exact hmem h
      | some o =>
        have hf := combineSignals_some_fields self k1 k2 _ o hc
        rw [List.filterMap_cons_some (by exact hc), List.filter_cons,
          if_neg (by
            simp only [hf.1, hf.2, decide_eq_true_eq]
            exact hkey), ih hks]
        by_cases hmem : (sym, ty) ∈ ks
        · rw [if_pos hmem, if_pos (List.mem_cons_of_mem _ hmem)]
        · rw [if_neg hmem, if_neg ?_]
          intro hcontra
          rcases List.mem_cons.mp hcontra with h | h
          · exact hkey ⟨(congrArg Prod.fst h).symm, (congrArg Prod.snd h).symm⟩
          · exact hmem h

/-! ## Combined-metadata lookup laws -/

/-- Extending the optional value-list at a key by newly collected
values: absent stays absent when nothing is collected, otherwise the
collected values are appended. -/
def optExtend (o : Option (List MVal)) (vs : List MVal) : Option (List MVal) :=
  match vs with
  | [] => o
  | _ => some (o.getD [] ++ vs)

theorem alookup_appendVal :
    ∀ (m : List (String × List MVal)) (k : String) (v : MVal) (k' : String),
      alookup (appendVal m k v) k' =
        if k' = k then some ((alookup m k).getD [] ++ [v]) else alookup m k' := by
  intro m
  induction m with
  | nil =>
    intro k v k'
    by_cases h : k' = k
    · simp [appendVal, alookup, h]
    · have h2 : ¬ k = k' := fun hc => h hc.symm
      simp [appendVal, alookup, h, h2]
  | cons p rest ih =>
    intro k v k'
    obtain ⟨k0, vs0⟩ := p
    by_cases h0 : k0 = k
    · subst h0
      rw [appendVal, if_pos rfl]
      by_cases h' : k0 = k'
      · subst h'
        simp [alookup]
      · have h2 : ¬ k' = k0 := fun hc => h' hc.symm
        simp [alookup, h', h2]
    · rw [appendVal, if_neg h0]
      by_cases h1 : k0 = k'
      · subst h1
        have hne2 : ¬ k0 = k := h0
        have hne3 : ¬ k0 = k := h0
        simp [alookup, hne2, fun hc => hne3 hc]
      · simp only [alookup, if_neg h1, ih]
        by_cases h2 : k' = k
        · rw [if_pos h2, if_pos h2]
          have : ¬ k0 = k := h0
          simp [alookup, this]
        · rw [if_neg h2, if_neg h2]

theorem optExtend_cons (o : Option (List MVal)) (v : MVal) (vs : List MVal) :
    optExtend o (v :: vs) = optExtend (some (o.getD [] ++ [v])) vs := by
  cases hvs : vs with
  | nil => simp [optExtend]
  | cons w ws => simp [optExtend]

theorem optExtend_append (o : Option (List MVal)) (vs ws : List MVal) :
    optExtend o (vs ++ ws) = optExtend (optExtend o vs) ws := by
  cases hvs : vs with
  | nil => simp [optExtend]
  | cons v vtl =>
    cases hws : ws with
    | nil => simp [optExtend]
    | cons w wtl => simp [optExtend]

theorem alookup_itemsFold :
    ∀ (items : Metadata) (acc : List (String × List MVal)) (k : String),
      alookup (items.foldl (fun a p => appendVal a p.1 p.2) acc) k =
        optExtend (alookup acc k)
          ((items.filter (fun p => p.1 = k)).map (fun p => p.2)) := by
  intro items
  induction items with
  | nil => intro acc k; simp [optExtend]
  | cons p rest ih =>
    intro acc k
    obtain ⟨k0, v0⟩ := p
    rw [List.foldl_cons, ih]
    by_cases h0 : k0 = k
    · subst h0
      rw [List.filter_cons, if_pos (by simp), List.map_cons, optExtend_cons]
      rw [alookup_appendVal, if_pos rfl]
    · rw [List.filter_cons, if_neg (by simp [h0])]
      rw [alookup_appendVal, if_neg (fun hc => h0 hc.symm)]

theorem alookup_collectMeta_general :
    ∀ (g : List StrategySignal) (acc : List (String × List MVal)) (k : String),
      alookup (g.foldl (fun a s => s.metadata.foldl (fun a p => appendVal a p.1 p.2) a) acc) k =
        optExtend (alookup acc k)
          (g.flatMap (fun s => (s.metadata.filter (fun p => p.1 = k)).map (fun p => p.2))) := by
  intro g
  induction g with
  | nil => intro acc k; simp [optExtend]
  | cons s rest ih =>
    intro acc k
    rw [List.foldl_cons, ih, List.flatMap_cons, optExtend_append, alookup_itemsFold]

theorem alookup_collectMeta (g : List StrategySignal) (k : String) :
    alookup (collectMeta g) k =
      optExtend none
        (g.flatMap (fun s => (s.metadata.filter (fun p => p.1 = k)).map (fun p => p.2))) := by
  unfold collectMeta
  rw [alookup_collectMeta_general]
  rfl

theorem filter_eq_nil_of_not_mem_keys :
    ∀ (m : Metadata) (k : String), k ∉ m.map Prod.fst →
      m.filter (fun p => p.1 = k) = [] := by
  intro m
  induction m with
  | nil => intro k _; rfl
  | cons p rest ih =>
    intro k hk
    have h1 : ¬ p.1 = k := by
      intro hc
      exact hk (by rw [← hc]; exact List.mem_map.mpr ⟨p, List.mem_cons_self _ _, rfl⟩)
    rw [List.filter_cons, if_neg (by simp [h1])]
    exact ih k (fun hc => hk (by rw [List.map_cons]; exact List.mem_cons_of_mem _ hc))

theorem filter_map_eq_alookup_toList :
    ∀ (m : Metadata) (k : String), (m.map Prod.fst).Nodup →
      (m.filter (fun p => p.1 = k)).map (fun p => p.2) = (alookup m k).toList := by
  intro m
  induction m with
  | nil => intro k _; rfl
  | cons p rest ih =>
    intro k hnd
    rw [List.map_cons] at hnd
    rcases List.nodup_cons.mp hnd with ⟨hp, hrest⟩
    by_cases h0 : p.1 = k
    · rw [List.filter_cons, if_pos (by simp [h0])]
      rw [show p = (p.1, p.2) from rfl, alookup, if_pos h0]
      rw [List.map_cons]
      rw [filter_eq_nil_of_not_mem_keys rest k (h0 ▸ hp)]
      rfl
    · rw [List.filter_cons, if_neg (by simp [h0]), ih k hrest,
        show p = (p.1, p.2) from rfl, alookup, if_neg h0]

theorem alookup_map_value {α β : Type} :
    ∀ (m : List (String × α)) (f : α → β) (k : String),
      alookup (m.map (fun p => (p.1, f p.2))) k = (alookup m k).map f := by
  intro m
  induction m with
  | nil => intro f k; rfl
  | cons p rest ih =>
    intro f k
    by_cases h : p.1 = k
    · simp [alookup, h]
    · simp only [List.map_cons, alookup, if_neg h, ih]

theorem flatMap_congr {α β : Type} (f1 f2 : α → List β) :
    ∀ (l : List α), (∀ x ∈ l, f1 x = f2 x) → l.flatMap f1 = l.flatMap f2 := by
  intro l
  induction l with
  | nil => intro _; rfl
  | cons x rest ih =>
    intro h
    rw [List.flatMap_cons, List.flatMap_cons, h x (List.mem_cons_self _ _),
      ih (fun y hy => h y (List.mem_cons_of_mem _ hy))]

theorem foldl_max_general :
    ∀ (l : List ℕ) (a : ℕ),
      (l.foldl max a = a ∨ l.foldl max a ∈ l)
      ∧ a ≤ l.foldl max a
      ∧ (∀ x ∈ l, x ≤ l.foldl max a) := by
  intro l
  induction l with
  | nil => intro a; exact ⟨Or.inl rfl, le_refl _, by simp⟩
  | cons y ys ih =>
    intro a
    rw [List.foldl_cons]
    obtain ⟨hmem, hle, hall⟩ := ih (max a y)
    refine ⟨?_, le_trans (le_max_left a y) hle, ?_⟩
    · rcases hmem with h | h
      · rcases max_choice a y with hc | hc
        · exact Or.inl (h.trans hc)
        · exact Or.inr (by rw [h, hc]; exact List.mem_cons_self _ _)
      · exact Or.inr (List.mem_cons_of_mem _ h)
    · intro x hx
      rcases List.mem_cons.mp hx with h | h
      · rw [h]
        exact le_trans (le_max_right a y) hle
      · exact hall x h

theorem foldl_max_spec (l : List ℕ) (h : l ≠ []) :
    l.foldl max 0 ∈ l ∧ ∀ x ∈ l, x ≤ l.foldl max 0 := by
  obtain ⟨hmem, _, hall⟩ := foldl_max_general l 0
  refine ⟨?_, hall⟩
  rcases hmem with h0 | h0
  · obtain ⟨x, hx⟩ := List.exists_mem_of_ne_nil l h
    have hx0 : x = 0 := Nat.le_zero.mp (h0 ▸ hall x hx)
    rw [h0, ← hx0]
    exact hx
  · exact h0

/-- C5.  For every `(symbol, signal_type)` group of the aggregator's
input: if the total strategy weight is zero or the weighted confidence
is strictly below `min_confidence`, no aggregated signal is emitted for
the group; otherwise exactly one is, whose confidence is the weighted
average, whose date is the maximum date in the group, and whose
metadata carries, at every ordinary key, the list of that key's values
from every contributing signal in contribution order (none when no
contributor has the key), plus `strategies` and `confidence_values` in
contribution order.  (Each signal's metadata is a Python dict, hence
the per-signal distinct-keys hypothesis.) -/
theorem aggregator_group_emission :
    ∀ (self : SignalAggregator) (signals : List StrategySignal)
      (sym : String) (ty : SignalType),
      groupOf signals sym ty ≠ [] →
      (∀ s ∈ groupOf signals sym ty, (s.metadata.map Prod.fst).Nodup) →
      ((self.totalWeight (groupOf signals sym ty) = 0 ∨
          self.weightedConfidence (groupOf signals sym ty) /
            self.totalWeight (groupOf signals sym ty) < self.params.min_confidence) →
        (self.aggregate signals).filter
          (fun o => o.symbol = sym ∧ o.signal_type = ty) = [])
      ∧ (¬ (self.totalWeight (groupOf signals sym ty) = 0 ∨
            self.weightedConfidence (groupOf signals sym ty) /
              self.totalWeight (groupOf signals sym ty) < self.params.min_confidence) →
          ∃ out,
            (self.aggregate signals).filter
              (fun o => o.symbol = sym ∧ o.signal_type = ty) = [out]
            ∧ out.confidence = self.weightedConfidence (groupOf signals sym ty) /
                self.totalWeight (groupOf signals sym ty)
            ∧ out.date ∈ (groupOf signals sym ty).map (fun s => s.date)
            ∧ (∀ s ∈ groupOf signals sym ty, s.date ≤ out.date)
            ∧ (∀ k : String, k ≠ "strategies" → k ≠ "confidence_values" →
                alookup out.metadata k =
                  (match (groupOf signals sym ty).filterMap
                      (fun s => alookup s.metadata k) with
                    | [] => none
                    | vs => some (MVal.list vs)))
            ∧ alookup out.metadata "strategies" =
                some (MVal.list ((groupOf signals sym ty).map (fun s => MVal.str s.strategy)))
            ∧ alookup out.metadata "confidence_values" =
                some (MVal.list ((groupOf signals sym ty).map (fun s => MVal.num s.confidence)))) := by
  intro self signals sym ty hg hnod
  have hkeys : (sym, ty) ∈ SignalAggregator.groupKeys signals := by
    apply (groupKeys_mem signals sym ty).mpr
    obtain ⟨s, hs⟩ := List.exists_mem_of_ne_nil _ hg
    rcases List.mem_filter.mp hs with ⟨hsig, hpred⟩
    exact ⟨s, hsig, by simpa using hpred⟩
  have hfilter := filterMap_keys_filter self signals sym ty
    (SignalAggregator.groupKeys signals) (groupKeys_nodup signals)
  constructor
  · intro hdrop
    show ((SignalAggregator.groupKeys signals).filterMap fun k =>
      self.combineSignals k.1 k.2 (groupOf signals k.1 k.2)).filter _ = []
    rw [hfilter, if_pos hkeys, combineSignals_eq_none self sym ty _ hdrop]
    rfl
  · intro hlive
    obtain ⟨h0, h1⟩ := not_or.mp hlive
    refine ⟨combinedRecord self sym ty (groupOf signals sym ty), ?_, rfl, ?_, ?_, ?_, ?_, ?_⟩
    · show ((SignalAggregator.groupKeys signals).filterMap fun k =>
        self.combineSignals k.1 k.2 (groupOf signals k.1 k.2)).filter _ = _
      rw [hfilter, if_pos hkeys, combineSignals_eq_some self sym ty _ h0 h1]
      rfl
    · have hmap : (groupOf signals sym ty).map (fun s => s.date) ≠ [] := by
        intro hc
        exact hg (List.map_eq_nil_iff.mp hc)
      exact (foldl_max_spec _ hmap).1
    · intro s hs
      have hmap : (groupOf signals sym ty).map (fun s => s.date) ≠ [] := by
        intro hc
        exact hg (List.map_eq_nil_iff.mp hc)
      exact (foldl_max_spec _ hmap).2 s.date (List.mem_map.mpr ⟨s, hs, rfl⟩)
    · intro k hk1 hk2
      show alookup (aset (aset ((collectMeta (groupOf signals sym ty)).map
        (fun p => (p.1, MVal.list p.2))) "strategies" _) "confidence_values" _) k = _
      rw [alookup_aset, if_neg (fun hc => hk2 hc.symm),
        alookup_aset, if_neg (fun hc => hk1 hc.symm),
        alookup_map_value, alookup_collectMeta]
      rw [flatMap_congr _ (fun s => (alookup s.metadata k).toList) _
        (fun s hs => filter_map_eq_alookup_toList s.metadata k (hnod s hs))]
      rw [← List.filterMap_eq_flatMap_toList]
      cases hcol : (groupOf signals sym ty).filterMap (fun s => alookup s.metadata k) with
      | nil => simp [optExtend]
      | cons v vs => simp [optExtend]
    · show alookup (aset (aset _ "strategies" _) "confidence_values" _) "strategies" = _
      rw [alookup_aset, if_neg (by decide),
        alookup_aset, if_pos rfl]
    · show alookup (aset (aset _ "strategies" _) "confidence_values" _) "confidence_values" = _
      rw [alookup_aset, if_pos rfl]

/-- C5 witness: the theorem at the concrete two-signal group of
`confWitnessGroup` — both hypotheses hold and exactly one aggregated
signal is emitted with the weighted-average confidence `7/10`. -/
theorem aggregator_group_emission_witness :
    (groupOf confWitnessGroup "A" SignalType.BUY ≠ [])
    ∧ (∀ s ∈ groupOf confWitnessGroup "A" SignalType.BUY,
        (s.metadata.map Prod.fst).Nodup)
    ∧ (¬ (SignalAggregator.totalWeight { params := {} }
          (groupOf confWitnessGroup "A" SignalType.BUY) = 0 ∨
        SignalAggregator.weightedConfidence { params := {} }
            (groupOf confWitnessGroup "A" SignalType.BUY) /
          SignalAggregator.totalWeight { params := {} }
            (groupOf confWitnessGroup "A" SignalType.BUY) <
          ({ params := {} } : SignalAggregator).params.min_confidence))
    ∧ (∃ out,
        (SignalAggregator.aggregate { params := {} } confWitnessGroup).filter
          (fun o => o.symbol = "A" ∧ o.signal_type = SignalType.BUY) = [out]
        ∧ out.confidence = 7/10) :=
  ⟨by with_unfolding_all exact fun h => List.noConfusion h,
   by with_unfolding_all decide,
   by with_unfolding_all decide,
   by
     obtain ⟨out, hfil, hconf, _⟩ :=
       (aggregator_group_emission { params := {} } confWitnessGroup "A" SignalType.BUY
         (by with_unfolding_all exact fun h => List.noConfusion h)
         (by with_unfolding_all decide)).2
         (by with_unfolding_all decide)
     exact ⟨out, hfil, by rw [hconf]; with_unfolding_all rfl⟩⟩
